import Mathlib

/-!
# DoujinRenamer: a shallow embedding of `main.go`

The program walks files, recognises catalog identifiers in their names, looks the
title and the maker of the work up on the web and renames the file to
`[maker] title.zip`.

Modelling choices.

* A Go `string` is a sequence of bytes (`GoString`); slicing and `len` count bytes.
* The outside world (HTTP, the HTML parser, the JSON decoder, `os.Rename`) is an
  environment `Env` of deterministic oracles.
* Every function of the program returns a `Run`: the trace of the effects it had, in
  order, and its `Outcome`: a normal return, a returned Go `error`, or a run-time
  panic (`fault`).  The trace also records the entry into each lookup function, so
  that "is invoked" is a statement about the trace.
* The library functions the program calls (`strings`, `path/filepath` with Unix
  separators, `regexp`, `dproxy`) are modelled by executable definitions.
-/

namespace DoujinRenamer

/-! ## Strings -/

/-- A Go string: an immutable sequence of bytes. -/
abbrev GoString := List UInt8

/-- The bytes (UTF-8) of a string literal of the Go source. -/
def str (s : String) : GoString := s.toList.flatMap String.utf8EncodeChar

/-- Go `strings.HasPrefix(s, p)`. -/
def hasPrefix (s p : GoString) : Bool := p.isPrefixOf s

/-- Go `strings.HasSuffix(s, p)`. -/
def hasSuffix (s p : GoString) : Bool := p.isSuffixOf s

/-- Go slice expression `s[:n]`: a run-time panic (`none`) when `n > len(s)`. -/
def sliceTo (s : GoString) (n : Nat) : Option GoString :=
  if n ≤ s.length then some (s.take n) else none

/-! ## Effects and outcomes -/

/-- A Go `error` value, identified by its message. -/
structure GoError where
  msg : GoString
  deriving DecidableEq, Repr

/-- What a call leaves behind, in order. -/
inductive Event where
  /-- entry into `getWorkInfoFromFanza` -/
  | callFanza (path contentID : GoString)
  /-- entry into `getWorkInfoFromDLsite` -/
  | callDLsite (path contentID : GoString)
  /-- entry into `scrapeFanza` -/
  | callScrape (path contentID : GoString)
  /-- `http.Get(url)` -/
  | httpGet (url : GoString)
  /-- bytes written to standard output -/
  | stdout (text : GoString)
  /-- `os.Rename(oldpath, newpath)` -/
  | rename (oldpath newpath : GoString)
  deriving DecidableEq, Repr

/-- How a Go call ends. -/
inductive Outcome (α : Type) where
  /-- normal return with a nil error -/
  | ok (a : α)
  /-- normal return with a non-nil error -/
  | err (e : GoError)
  /-- run-time panic (index or slice bounds out of range) -/
  | fault
  deriving DecidableEq, Repr

/-- The effects of a call and how it ended. -/
structure Run (α : Type) where
  trace : List Event
  result : Outcome α
  deriving DecidableEq, Repr

/-- The `os.Rename` calls of a trace, in order. -/
def renames (t : List Event) : List (GoString × GoString) :=
  t.filterMap fun e => match e with
    | .rename o n => some (o, n)
    | _ => none

/-- Everything a trace wrote to standard output. -/
def output (t : List Event) : GoString :=
  (t.filterMap fun e => match e with
    | .stdout s => some s
    | _ => none).flatten

/-- The number of entries into `scrapeFanza` in a trace. -/
def scrapeCalls (t : List Event) : Nat :=
  t.countP fun e => match e with
    | .callScrape _ _ => true
    | _ => false

/-- The entries into the Catalog A lookup in a trace, as (path, identifier). -/
def fanzaCalls (t : List Event) : List (GoString × GoString) :=
  t.filterMap fun e => match e with
    | .callFanza p c => some (p, c)
    | _ => none

/-- The entries into the Catalog B lookup in a trace, as (path, identifier). -/
def dlsiteCalls (t : List Event) : List (GoString × GoString) :=
  t.filterMap fun e => match e with
    | .callDLsite p c => some (p, c)
    | _ => none

/-! ## `path/filepath` (Unix separators) -/

namespace filepath

/-- Go `os.IsPathSeparator` on Unix: the byte `/`. -/
def isPathSeparator (c : UInt8) : Bool := c == 47

/-- The head of the unread input is a separator (`os.IsPathSeparator(path[r])`). -/
def sepAhead (s : GoString) : Bool :=
  match s with
  | [] => false
  | c :: _ => isPathSeparator c

/-- The `..` case of `Clean` on the written bytes, last written first:
`out.w--; for out.w > dotdot && !os.IsPathSeparator(out.index(out.w)) { out.w-- }`.
Each step takes one byte off; it goes on while more than `dotdot` bytes remain and
the byte just taken off is no separator. -/
def dropElem (dotdot : Nat) : GoString → GoString
  | [] => []
  | b :: rest =>
    if dotdot < rest.length && !isPathSeparator b then dropElem dotdot rest else rest

/-- The written bytes (first written first) after the `..` case backtracked. -/
def backtrack (out : GoString) (dotdot : Nat) : GoString :=
  (dropElem dotdot out.reverse).reverse

/-- The main loop of `Clean`: `rest` is `path[r:]`, `out` the bytes written so far
(`out.w` is its length).  Every round consumes at least one byte of `rest`, so
`len(path) + 1` rounds of fuel suffice. -/
def cleanLoop (rooted : Bool) : Nat → GoString → GoString → Nat → GoString
  | 0, _, out, _ => out
  | fuel + 1, rest, out, dotdot =>
    match rest with
    | [] => out
    | c :: tl =>
      if isPathSeparator c then
        -- empty path element
        cleanLoop rooted fuel tl out dotdot
      else if c == 46 && (tl.isEmpty || sepAhead tl) then
        -- . element
        cleanLoop rooted fuel tl out dotdot
      else if c == 46 && tl.head? == some 46 && (tl.tail.isEmpty || sepAhead tl.tail) then
        -- .. element: remove to last separator
        if dotdot < out.length then
          cleanLoop rooted fuel tl.tail (backtrack out dotdot) dotdot
        else if !rooted then
          let out1 := if 0 < out.length then out ++ [47] else out
          let out2 := out1 ++ [46, 46]
          cleanLoop rooted fuel tl.tail out2 out2.length
        else
          cleanLoop rooted fuel tl.tail out dotdot
      else
        -- real path element: add slash if needed, copy element
        let out1 :=
          if (rooted && out.length != 1) || (!rooted && out.length != 0) then out ++ [47]
          else out
        let elem := (c :: tl).takeWhile fun b => !isPathSeparator b
        let rest1 := (c :: tl).dropWhile fun b => !isPathSeparator b
        cleanLoop rooted fuel rest1 (out1 ++ elem) dotdot

/-- Go `filepath.Clean` (Unix: no volume name). -/
def Clean (path : GoString) : GoString :=
  match path with
  | [] => [46]
  | c :: tl =>
    let rooted := isPathSeparator c
    let out :=
      if rooted then cleanLoop true (path.length + 1) tl [47] 1
      else cleanLoop false (path.length + 1) path [] 0
    if out.isEmpty then [46] else out

/-- The part of `path` up to and including its last separator (`path[:i+1]` of `Dir`). -/
def dirPart (path : GoString) : GoString :=
  (path.reverse.dropWhile fun b => !isPathSeparator b).reverse

/-- Go `filepath.Dir`. -/
def Dir (path : GoString) : GoString := Clean (dirPart path)

/-- Go `filepath.Base`. -/
def Base (path : GoString) : GoString :=
  if path.isEmpty then [46]
  else
    -- strip trailing slashes
    let stripped := (path.reverse.dropWhile isPathSeparator).reverse
    -- find the last element
    let last := (stripped.reverse.takeWhile fun b => !isPathSeparator b).reverse
    -- if empty now, it had only slashes
    if last.isEmpty then [47] else last

/-- Go `strings.Join(elems, "/")`. -/
def joinSep : List GoString → GoString
  | [] => []
  | [e] => e
  | e :: es => e ++ 47 :: joinSep es

/-- Go `filepath.Join`: the elements from the first non-empty one on, joined by the
separator and cleaned; the empty string when every element is empty. -/
def Join : List GoString → GoString
  | [] => []
  | e :: es => if e.isEmpty then Join es else Clean (joinSep (e :: es))

end filepath

/-! ## `regexp`: the fragment the program uses

A backtracking matcher: Go's `regexp` returns the match "that a backtracking search
would have found first" (leftmost, greedy operators preferring more).  The matcher
works on bytes; `.` is any byte but the line feed.  For the program's pattern this
agrees with matching on runes: its literals start with ASCII bytes, which never lie
inside a multi-byte rune, and a leftmost match starts at the start of a line. -/

/-- Regular expressions: literals, greedy `.*`, numbered capture groups, sequence. -/
inductive Regex where
  | lit (s : GoString)
  | anyStar
  | capture (i : Nat) (r : Regex)
  | cat (r s : Regex)
  deriving Repr

/-- The text of each capture group that took part in the match. -/
abbrev Captures := List (Nat × GoString)

/-- Greedy `.*` before the continuation `k`: consume one more byte when the rest of
the pattern still matches afterwards, stop here otherwise. -/
def starAny {α : Type} (k : GoString → Option α) : GoString → Option α
  | [] => k []
  | c :: rest =>
    if c = 10 then k (c :: rest)
    else
      match starAny k rest with
      | some r => some r
      | none => k (c :: rest)

/-- Match `r` at the start of `inp`, then the continuation `k` on what is left. -/
def Regex.run {α : Type} : Regex → GoString → Captures →
    (GoString → Captures → Option α) → Option α
  | .lit s, inp, caps, k =>
    if s.isPrefixOf inp then k (inp.drop s.length) caps else none
  | .anyStar, inp, caps, k => starAny (fun rest => k rest caps) inp
  | .capture i r, inp, caps, k =>
    r.run inp caps fun rest caps1 =>
      k rest ((i, inp.take (inp.length - rest.length)) :: caps1)
  | .cat r s, inp, caps, k =>
    r.run inp caps fun rest caps1 => s.run rest caps1 k

/-- The number of capture groups (Go `NumSubexp`). -/
def Regex.numSubexp : Regex → Nat
  | .lit _ => 0
  | .anyStar => 0
  | .capture _ r => r.numSubexp + 1
  | .cat r s => r.numSubexp + s.numSubexp

/-- The submatches of a match of `r` at the start of `inp`: the whole match, then the
text of groups `1 .. NumSubexp` (empty for a group that took no part); and the input
left after the match. -/
def Regex.matchAt (r : Regex) (inp : GoString) : Option (List GoString × GoString) :=
  r.run inp [] fun rest caps =>
    some (inp.take (inp.length - rest.length) ::
      (List.range r.numSubexp).map (fun i => (caps.lookup (i + 1)).getD []), rest)

/-- The leftmost match in `inp`. -/
def Regex.search (r : Regex) : GoString → Option (List GoString × GoString)
  | [] => r.matchAt []
  | c :: rest =>
    match r.matchAt (c :: rest) with
    | some m => some m
    | none => r.search rest

/-- Successive non-overlapping matches, at most `fuel` of them.  After a match that
consumed nothing the search moves one byte on. -/
def Regex.findAll (r : Regex) : Nat → GoString → List (List GoString)
  | 0, _ => []
  | fuel + 1, inp =>
    match r.search inp with
    | none => []
    | some (m, rest) =>
      m :: (if rest.length < inp.length then r.findAll fuel rest
            else r.findAll fuel (inp.drop 1))

/-- Go `re.FindAllStringSubmatch(s, -1)`; the empty list is Go's `nil`. -/
def Regex.FindAllStringSubmatch (r : Regex) (s : GoString) : List (List GoString) :=
  r.findAll (s.length + 1) s

/-- The package variable `re`: the compiled pattern `(.*)\((.*)\) - FANZA同人`. -/
def re : Regex :=
  .cat (.capture 1 .anyStar)
    (.cat (.lit (str "("))
      (.cat (.capture 2 .anyStar) (.lit (str ") - FANZA同人"))))

/-! ## `encoding/json` values and `dproxy` navigation -/

/-- What `json.Unmarshal` stores into an `interface{}`. -/
inductive JSON where
  | null
  | bool (b : Bool)
  | number (digits : GoString)
  | string (s : GoString)
  | array (items : List JSON)
  | object (fields : List (GoString × JSON))

/-- A `dproxy.Proxy`: a value, or the error of the first step that failed. -/
abbrev Proxy := Except GoError JSON

/-- Go `dproxy.New(v)`. -/
def dproxyNew (v : JSON) : Proxy := .ok v

/-- Go `Proxy.M(k)`: the field `k` of a map; an error on a missing key, on a value
that is no map, and on an error proxy. -/
def Proxy.M (p : Proxy) (k : GoString) : Proxy :=
  match p with
  | .error e => .error e
  | .ok (.object fields) =>
    match fields.lookup k with
    | some w => .ok w
    | none => .error ⟨str "not found"⟩
  | .ok _ => .error ⟨str "not matched types"⟩

/-- Go `Proxy.A(n)`: the item `n` of an array; an error on an index out of range, on
a value that is no array, and on an error proxy. -/
def Proxy.A (p : Proxy) (n : Nat) : Proxy :=
  match p with
  | .error e => .error e
  | .ok (.array items) =>
    match items.get? n with
    | some w => .ok w
    | none => .error ⟨str "not found"⟩
  | .ok _ => .error ⟨str "not matched types"⟩

/-- Go `Proxy.String()`: the string and a nil error, or `""` and an error. -/
def Proxy.String (p : Proxy) : GoString × Option GoError :=
  match p with
  | .error e => ([], some e)
  | .ok (.string s) => (s, none)
  | .ok _ => ([], some ⟨str "not matched types"⟩)

/-! ## The environment -/

/-- An HTTP response: what `ioutil.ReadAll(resp.Body)` returns. -/
structure Response where
  readAll : Except GoError GoString

/-- A parsed HTML document: `doc.Find(selector).Text()`. -/
structure Document where
  findText : GoString → GoString

/-- The outside world. -/
structure Env where
  /-- `http.Get(url)` -/
  httpGet : GoString → Except GoError Response
  /-- `goquery.NewDocumentFromReader` on the bytes of the reader -/
  newDocumentFromReader : GoString → Except GoError Document
  /-- `json.Unmarshal(data, &v)` for `v interface{}`: `none` on invalid JSON, which
  leaves `v` nil -/
  jsonUnmarshal : GoString → Option JSON
  /-- `os.Rename(oldpath, newpath)`: the error, if any -/
  osRename : GoString → GoString → Option GoError

/-- A returned `error` as an outcome. -/
def ofError (e : Option GoError) : Outcome Unit :=
  match e with
  | none => .ok ()
  | some e => .err e

/-! ## The program -/

/-- `FanzaAPIInfo` of the source. -/
structure FanzaAPIInfo where
  APIID : GoString
  AffiliateID : GoString

/-- `Work` of the source. -/
structure Work where
  Title : GoString
  Maker : GoString
  deriving DecidableEq, Repr

/-- `os.FileInfo`, as far as the program reads it. -/
structure FileInfo where
  Name : GoString
  IsDir : Bool

/-- `func (w *Work) filename() string`. -/
def Work.filename (w : Work) : GoString :=
  str "[" ++ w.Maker ++ str "] " ++ w.Title ++ str ".zip"

/-- `func loadHTMLFromWeb(url string) (io.Reader, error)`. -/
def loadHTMLFromWeb (env : Env) (url : GoString) : Run GoString :=
  match env.httpGet url with
  | .error e => ⟨[.httpGet url], .err e⟩
  | .ok resp =>
    match resp.readAll with
    | .error e => ⟨[.httpGet url], .err e⟩
    | .ok body => ⟨[.httpGet url], .ok body⟩

/-- `func generateRequestURL(contentID string, fanzaAPIInfo *FanzaAPIInfo) string`. -/
def generateRequestURL (contentID : GoString) (fanzaAPIInfo : FanzaAPIInfo) : GoString :=
  str "https://api.dmm.com/affiliate/v3/ItemList?api_id=" ++ fanzaAPIInfo.APIID ++
    str "&affiliate_id=" ++ fanzaAPIInfo.AffiliateID ++ str "&site=FANZA&cid=" ++ contentID

/-- `func scrapeFanza(path, contentID string, enableRename bool) (*Work, error)`. -/
def scrapeFanza (env : Env) (path contentID : GoString) (_enableRename : Bool) : Run Work :=
  let html := loadHTMLFromWeb env
    (str "https://www.dmm.co.jp/dc/doujin/-/detail/=/cid=" ++ contentID)
  let t := Event.callScrape path contentID :: html.trace
  match html.result with
  | .fault => ⟨t, .fault⟩
  | .err e => ⟨t, .err e⟩
  | .ok body =>
    match env.newDocumentFromReader body with
    | .error e => ⟨t, .err e⟩
    | .ok doc =>
      let titleRaw := doc.findText (str "title")
      let result := re.FindAllStringSubmatch titleRaw
      match result with
      | [] => ⟨t, .fault⟩ -- result[0]: index out of range
      | r0 :: _ =>
        match r0 with
        | [_, r01, r02] => ⟨t, .ok ⟨r01, r02⟩⟩
        | _ => ⟨t, .err ⟨str "Error during pattern match"⟩⟩ -- len(result[0]) != 3

/-- `func getWorkInfoFromDLsite(path, contentID string, enableRename bool) error`. -/
def getWorkInfoFromDLsite (env : Env) (path contentID : GoString) (enableRename : Bool) :
    Run Unit :=
  let html := loadHTMLFromWeb env
    (str "https://www.dlsite.com/maniax/work/=/product_id/" ++ contentID ++ str ".html")
  let t := Event.callDLsite path contentID :: html.trace
  match html.result with
  | .fault => ⟨t, .fault⟩
  | .err e => ⟨t, .err e⟩
  | .ok body =>
    match env.newDocumentFromReader body with
    | .error e => ⟨t, .err e⟩
    | .ok doc =>
      let work : Work :=
        { Title := doc.findText (str "h1#work_name>a")
          Maker := doc.findText (str "span.maker_name>a") }
      let t1 := t ++ [.stdout (path ++ str " -> " ++ work.filename ++ str "\n")]
      if enableRename then
        let newpath := filepath.Join [filepath.Dir path, work.filename]
        ⟨t1 ++ [.rename path newpath], ofError (env.osRename path newpath)⟩
      else ⟨t1, .ok ()⟩

/-- The expression `dproxy.New(v).M("result").M("items").A(0).M("title").String()` of
`getWorkInfoFromFanza`. -/
def navTitle (v : JSON) : GoString × Option GoError :=
  (((((dproxyNew v).M (str "result")).M (str "items")).A 0).M (str "title")).String

/-- The expression
`dproxy.New(v).M("result").M("items").A(0).M("iteminfo").M("maker").A(0).M("name").String()`
of `getWorkInfoFromFanza`. -/
def navMaker (v : JSON) : GoString × Option GoError :=
  ((((((((dproxyNew v).M (str "result")).M (str "items")).A 0).M (str "iteminfo")).M
    (str "maker")).A 0).M (str "name")).String

/-- `func getWorkInfoFromFanza(path, contentID string, fanzaAPIInfo *FanzaAPIInfo,
enableRename bool) error`. -/
def getWorkInfoFromFanza (env : Env) (path contentID : GoString)
    (fanzaAPIInfo : FanzaAPIInfo) (enableRename : Bool) : Run Unit :=
  let reqURL := generateRequestURL contentID fanzaAPIInfo
  let t := [Event.callFanza path contentID, .httpGet reqURL]
  match env.httpGet reqURL with
  | .error e => ⟨t, .err e⟩
  | .ok resp =>
    match resp.readAll with
    | .error e => ⟨t, .err e⟩
    | .ok respBytes =>
      let t1 := t ++ [.stdout (path ++ str " -> ")]
      let v : JSON := (env.jsonUnmarshal respBytes).getD .null
      let (title, err1) := navTitle v
      let (maker, err) := navMaker v
      let finish (t2 : List Event) (work : Work) : Run Unit :=
        let t3 := t2 ++ [.stdout (work.filename ++ str "\n")]
        if enableRename then
          let newpath := filepath.Join [filepath.Dir path, work.filename]
          ⟨t3 ++ [.rename path newpath], ofError (env.osRename path newpath)⟩
        else ⟨t3, .ok ()⟩
      if err1.isSome || err.isSome then
        let s := scrapeFanza env path contentID enableRename
        match s.result with
        | .fault => ⟨t1 ++ s.trace, .fault⟩
        | .err e => ⟨t1 ++ s.trace, .err e⟩
        | .ok work => finish (t1 ++ s.trace) work
      else finish t1 { Title := title, Maker := maker }

/-- `func getWorkInfo(path string, info os.FileInfo, err error,
fanzaAPIInfo *FanzaAPIInfo, enableRename bool) error`. -/
def getWorkInfo (env : Env) (path : GoString) (info : FileInfo) (err : Option GoError)
    (fanzaAPIInfo : FanzaAPIInfo) (enableRename : Bool) : Run Unit :=
  match err with
  | some e => ⟨[], .err e⟩
  | none =>
    if info.IsDir then ⟨[], .ok ()⟩
    else if hasPrefix info.Name (str "d_") && hasSuffix info.Name (str ".zip") then
      match sliceTo info.Name 8 with
      | none => ⟨[], .fault⟩ -- info.Name()[:8]: slice bounds out of range
      | some contentID => getWorkInfoFromFanza env path contentID fanzaAPIInfo enableRename
    else if hasPrefix info.Name (str "RJ") && hasSuffix info.Name (str ".zip") then
      match sliceTo info.Name 8 with
      | none => ⟨[], .fault⟩ -- info.Name()[:8]: slice bounds out of range
      | some contentID => getWorkInfoFromDLsite env path contentID enableRename
    else ⟨[], .ok ()⟩

/-! ## Environments for the concrete instances -/

/-- A world in which every request succeeds with an empty body, every page parses and
answers selectors by `find`, every API body decodes to `json` and every rename ends
with `renameErr`. -/
def worldEnv (find : GoString → GoString) (json : Option JSON)
    (renameErr : Option GoError) : Env where
  httpGet := fun _ => .ok ⟨.ok []⟩
  newDocumentFromReader := fun _ => .ok ⟨find⟩
  jsonUnmarshal := fun _ => json
  osRename := fun _ _ => renameErr

/-- The world in which the `title` element of every page has text `title`, every other
selector finds nothing, every API body is invalid JSON and every rename succeeds. -/
def titleEnv (title : GoString) : Env :=
  worldEnv (fun sel => if sel = str "title" then title else []) none none

/-- The API answer `{"result":{"items":[{"title":T,"iteminfo":{"maker":[{"name":M}]}}]}}`. -/
def apiAnswer (T M : GoString) : JSON :=
  .object [(str "result", .object [(str "items", .array [.object
    [(str "title", .string T),
     (str "iteminfo", .object [(str "maker", .array [.object [(str "name", .string M)]])])]])])]

/-- The API answer `{"result":{"items":[]}}`. -/
def apiNoItems : JSON :=
  .object [(str "result", .object [(str "items", .array [])])]

/-- The API answer `{"result":{"items":[{"title":123,"iteminfo":{"maker":[{"name":M}]}}]}}`:
the title is a number. -/
def apiNumberTitle (M : GoString) : JSON :=
  .object [(str "result", .object [(str "items", .array [.object
    [(str "title", .number (str "123")),
     (str "iteminfo", .object [(str "maker", .array [.object [(str "name", .string M)]])])]])])]

/-- The API answer `{"result":{"items":[{"iteminfo":{"maker":[{"name":M}]}}]}}`: the item
has no title. -/
def apiNoTitle (M : GoString) : JSON :=
  .object [(str "result", .object [(str "items", .array [.object
    [(str "iteminfo", .object [(str "maker", .array [.object [(str "name", .string M)]])])]])])]

/-- API credentials for the concrete instances. -/
def demoAPI : FanzaAPIInfo := ⟨str "id", str "aff"⟩

/-! ## Vocabulary of the statements -/

/-- The target of the rename of `path` for `work`. -/
def renameTarget (path : GoString) (work : Work) : GoString :=
  filepath.Join [filepath.Dir path, work.filename]

/-- The URL of the Catalog A detail page. -/
def detailURL (contentID : GoString) : GoString :=
  str "https://www.dmm.co.jp/dc/doujin/-/detail/=/cid=" ++ contentID

/-- The URL of the Catalog B detail page. -/
def dlsiteURL (contentID : GoString) : GoString :=
  str "https://www.dlsite.com/maniax/work/=/product_id/" ++ contentID ++ str ".html"

/-- The first item of `result.items` of the JSON value `v`: `v` is an object whose
field `result` is an object whose field `items` is an array with first item `item`. -/
def FirstItem (v item : JSON) : Prop :=
  ∃ f1 f2 more, v = .object f1 ∧ f1.lookup (str "result") = some (.object f2) ∧
    f2.lookup (str "items") = some (.array (item :: more))

/-- The JSON value `v` has the string `T` at `result.items[0].title`. -/
def HasTitle (v : JSON) (T : GoString) : Prop :=
  ∃ f3, FirstItem v (.object f3) ∧ f3.lookup (str "title") = some (.string T)

/-- The JSON value `v` has the string `M` at `result.items[0].iteminfo.maker[0].name`. -/
def HasMaker (v : JSON) (M : GoString) : Prop :=
  ∃ f3 f4 f5 more, FirstItem v (.object f3) ∧
    f3.lookup (str "iteminfo") = some (.object f4) ∧
    f4.lookup (str "maker") = some (.array (.object f5 :: more)) ∧
    f5.lookup (str "name") = some (.string M)

/-- The Catalog B lookup resolves `w` for `contentID`: the page loads and parses, and
`w` is what the two selectors find. -/
def DLsiteResolves (env : Env) (contentID : GoString) (w : Work) : Prop :=
  ∃ resp body doc, env.httpGet (dlsiteURL contentID) = .ok resp ∧ resp.readAll = .ok body ∧
    env.newDocumentFromReader body = .ok doc ∧
    w = ⟨doc.findText (str "h1#work_name>a"), doc.findText (str "span.maker_name>a")⟩

/-- The Catalog A lookup resolves `w` for `contentID`: the API answers, and either both
JSON navigations succeed and `w` is their result, or one fails and `scrapeFanza`
returns `w`. -/
def FanzaResolves (env : Env) (path contentID : GoString) (api : FanzaAPIInfo) (en : Bool)
    (w : Work) : Prop :=
  ∃ resp body, env.httpGet (generateRequestURL contentID api) = .ok resp ∧
    resp.readAll = .ok body ∧
    (((navTitle ((env.jsonUnmarshal body).getD .null)).2 = none ∧
        (navMaker ((env.jsonUnmarshal body).getD .null)).2 = none ∧
        w = ⟨(navTitle ((env.jsonUnmarshal body).getD .null)).1,
             (navMaker ((env.jsonUnmarshal body).getD .null)).1⟩) ∨
      (¬ ((navTitle ((env.jsonUnmarshal body).getD .null)).2 = none ∧
          (navMaker ((env.jsonUnmarshal body).getD .null)).2 = none) ∧
        (scrapeFanza env path contentID en).result = .ok w))

/-! ## Vocabulary of the path lemmas -/

namespace filepath

/-- A string without a separator. -/
def SepFree (e : GoString) : Prop := ∀ b ∈ e, isPathSeparator b = false

/-- A real path element: not empty, without a separator, neither `.` nor `..`. -/
def Real (e : GoString) : Prop := e ≠ [] ∧ SepFree e ∧ e ≠ [46] ∧ e ≠ [46, 46]

/-- The unread input ends an element: it is empty or starts with a separator. -/
def TailOK (t : GoString) : Prop := t = [] ∨ ∃ t1, t = 47 :: t1

/-- Each element preceded by a separator. -/
def slashed (xs : List GoString) : GoString := xs.flatMap fun x => 47 :: x

/-- The default case of `Clean` on the written bytes: a separator if needed, then
the element. -/
def push (rooted : Bool) (out e : GoString) : GoString :=
  (if (rooted && out.length != 1) || (!rooted && out.length != 0) then out ++ [47] else out)
    ++ e

/-- The invariant of the loop of `Clean`: what is written is a cleaned path, the root
or a run of `..` elements first (`dotdot` is the length of that part), then real
elements. -/
def Inv (rooted : Bool) (out : GoString) (dotdot : Nat) : Prop :=
  if rooted then
    dotdot = 1 ∧ ∃ es : List GoString, (∀ e ∈ es, Real e) ∧ out = 47 :: joinSep es
  else
    ∃ (n : Nat) (es : List GoString), (∀ e ∈ es, Real e) ∧
      out = joinSep (List.replicate n [46, 46] ++ es) ∧
      dotdot = (joinSep (List.replicate n [46, 46])).length

/-- A cleaned path: `.`, or the root followed by real elements, or a non-empty run of
`..` elements followed by real elements. -/
def Canon (c : GoString) : Prop :=
  c = [46] ∨
  (∃ es : List GoString, (∀ e ∈ es, Real e) ∧ c = 47 :: joinSep es) ∨
  (∃ (n : Nat) (es : List GoString), (∀ e ∈ es, Real e) ∧
    c = joinSep (List.replicate n [46, 46] ++ es) ∧ c ≠ [])

end filepath

/-! ## Traces of the lookups -/

theorem loadHTMLFromWeb_trace (env : Env) (url : GoString) :
    (loadHTMLFromWeb env url).trace = [.httpGet url] := by
  unfold loadHTMLFromWeb
  split
  · rfl
  · split <;> rfl

theorem scrapeFanza_trace (env : Env) (path contentID : GoString) (en : Bool) :
    (scrapeFanza env path contentID en).trace =
      [.callScrape path contentID,
       .httpGet (str "https://www.dmm.co.jp/dc/doujin/-/detail/=/cid=" ++ contentID)] := by
  simp only [scrapeFanza, loadHTMLFromWeb_trace]
  split
  · rfl
  · rfl
  · split
    · rfl
    · split
      · rfl
      · split <;> rfl

theorem fanzaCalls_getWorkInfoFromFanza (env : Env) (path contentID : GoString)
    (api : FanzaAPIInfo) (en : Bool) :
    fanzaCalls (getWorkInfoFromFanza env path contentID api en).trace = [(path, contentID)] ∧
    dlsiteCalls (getWorkInfoFromFanza env path contentID api en).trace = [] := by
  simp only [getWorkInfoFromFanza]
  split
  · simp [fanzaCalls, dlsiteCalls]
  · split
    · simp [fanzaCalls, dlsiteCalls]
    · split
      · split
        · simp [fanzaCalls, dlsiteCalls, scrapeFanza_trace]
        · simp [fanzaCalls, dlsiteCalls, scrapeFanza_trace]
        · cases en <;> simp [fanzaCalls, dlsiteCalls, scrapeFanza_trace]
      · cases en <;> simp [fanzaCalls, dlsiteCalls]

theorem dlsiteCalls_getWorkInfoFromDLsite (env : Env) (path contentID : GoString)
    (en : Bool) :
    dlsiteCalls (getWorkInfoFromDLsite env path contentID en).trace = [(path, contentID)] ∧
    fanzaCalls (getWorkInfoFromDLsite env path contentID en).trace = [] := by
  simp only [getWorkInfoFromDLsite, loadHTMLFromWeb_trace]
  split
  · simp [fanzaCalls, dlsiteCalls]
  · simp [fanzaCalls, dlsiteCalls]
  · split
    · simp [fanzaCalls, dlsiteCalls]
    · cases en <;> simp [fanzaCalls, dlsiteCalls]

theorem hasPrefix_RJ_not_d (s : GoString) (h : hasPrefix s (str "RJ") = true) :
    hasPrefix s (str "d_") = false := by
  have e1 : str "RJ" = [82, 74] := by decide
  have e2 : str "d_" = [100, 95] := by decide
  rw [e1] at h
  rw [e2]
  cases s with
  | nil => rfl
  | cons a rest =>
    simp only [hasPrefix, List.isPrefixOf, Bool.and_eq_true, beq_iff_eq] at h ⊢
    rw [← h.1]
    rfl

/-! ## The pattern `re` -/

theorem starAny_none {α : Type} (k : GoString → Option α) (l : GoString)
    (h : ∀ S, S <:+ l → k S = none) : starAny k l = none := by
  induction l with
  | nil => exact h [] (List.suffix_refl _)
  | cons c rest ih =>
    have hr : starAny k rest = none :=
      ih fun S hS => h S (hS.trans (List.suffix_cons c rest))
    have hc : k (c :: rest) = none := h _ (List.suffix_refl _)
    simp [starAny, hr, hc]

theorem starAny_found {α : Type} (k : GoString → Option α) (A B : GoString) (r : α)
    (hA : ∀ b ∈ A, b ≠ 10) (hB : k B = some r)
    (hlater : ∀ S, S <:+ B → S.length < B.length → k S = none) :
    starAny k (A ++ B) = some r := by
  induction A with
  | nil =>
    cases B with
    | nil => simpa [starAny] using hB
    | cons c rest =>
      have hr : starAny k rest = none :=
        starAny_none k rest fun S hS =>
          hlater S (hS.trans (List.suffix_cons c rest))
            (Nat.lt_succ_of_le hS.length_le)
      simp [starAny, hr, hB]
  | cons a A ih =>
    have ha : a ≠ 10 := hA a (List.mem_cons_self _ _)
    have := ih fun b hb => hA b (List.mem_cons_of_mem _ hb)
    simp [starAny, ha, this]

theorem search_of_matchAt (r : Regex) (inp : GoString) (m : List GoString × GoString)
    (h : r.matchAt inp = some m) : r.search inp = some m := by
  cases inp with
  | nil => simpa [Regex.search] using h
  | cons c rest => simp [Regex.search, h]

theorem isPrefixOf_length_le (p s : GoString) (h : p.isPrefixOf s = true) :
    p.length ≤ s.length :=
  (List.isPrefixOf_iff_prefix.mp h).length_le

/-- The match of `re` at the start of `A ( M ) - FANZA同人`, for `A` without a line
feed and `M` without a line feed or an opening parenthesis. -/
theorem re_matchAt (A M : GoString) (hA : ∀ b ∈ A, b ≠ 10)
    (hM : ∀ b ∈ M, b ≠ 10 ∧ b ≠ 40) :
    re.matchAt (A ++ str "(" ++ M ++ str ") - FANZA同人") =
      some ([A ++ str "(" ++ M ++ str ") - FANZA同人", A, M], []) := by
  have e1 : str "(" = [40] := by decide
  have e2 : str ") - FANZA同人" =
      [41, 32, 45, 32, 70, 65, 78, 90, 65, 229, 144, 140, 228, 186, 186] := by decide
  rw [e1, e2]
  generalize hS : ([41, 32, 45, 32, 70, 65, 78, 90, 65, 229, 144, 140, 228, 186, 186] :
    GoString) = SUF
  have hSUF : ∀ b ∈ SUF, b ≠ 40 := by subst hS; decide
  have hlen : SUF.length = 15 := by subst hS; rfl
  simp only [Regex.matchAt, re, Regex.run, e1, e2, hS]
  have hassoc : A ++ [40] ++ M ++ SUF = A ++ (40 :: (M ++ SUF)) := by simp
  rw [hassoc]
  apply starAny_found _ A (40 :: (M ++ SUF)) _ hA
  · -- the continuation at the parenthesis
    simp only [List.isPrefixOf, beq_self_eq_true, Bool.true_and, if_true, List.length_cons,
      List.length_nil, List.drop_succ_cons, List.drop_zero]
    apply starAny_found _ M SUF _ (fun b hb => (hM b hb).1)
    · simp [Regex.numSubexp, List.range_succ, List.lookup, hlen]
    · intro S _ hlt
      have : SUF.isPrefixOf S = false := by
        cases h : SUF.isPrefixOf S
        · rfl
        · exact absurd (isPrefixOf_length_le _ _ h) (by omega)
      simp [this]
  · intro S hS hlt
    have hS1 : S <:+ M ++ SUF := by
      rcases hS with ⟨pre, hpre⟩
      cases pre with
      | nil => simp at hpre; subst hpre; simp at hlt
      | cons p pre =>
        simp only [List.cons_append, List.cons.injEq] at hpre
        exact ⟨pre, hpre.2⟩
    have hne : ∀ b ∈ S, b ≠ 40 := fun b hb => by
      have := hS1.subset hb
      rcases List.mem_append.mp this with h | h
      · exact (hM b h).2
      · exact hSUF b h
    cases S with
    | nil => simp [List.isPrefixOf]
    | cons s S =>
      have : s ≠ 40 := hne s (List.mem_cons_self _ _)
      have h40 : ((40 : UInt8) == s) = false := by
        simp only [beq_eq_false_iff_ne]; exact fun h => this h.symm
      simp [List.isPrefixOf, h40]

theorem re_find (A M : GoString) (hA : ∀ b ∈ A, b ≠ 10)
    (hM : ∀ b ∈ M, b ≠ 10 ∧ b ≠ 40) :
    ∃ more, re.FindAllStringSubmatch (A ++ str "(" ++ M ++ str ") - FANZA同人") =
      [A ++ str "(" ++ M ++ str ") - FANZA同人", A, M] :: more := by
  simp only [Regex.FindAllStringSubmatch, Regex.findAll,
    search_of_matchAt _ _ _ (re_matchAt A M hA hM)]
  exact ⟨_, rfl⟩

/-! ## The runs of the two lookups, case by case -/

theorem loadHTMLFromWeb_ok (env : Env) (url : GoString) (resp : Response) (body : GoString)
    (hget : env.httpGet url = .ok resp) (hread : resp.readAll = .ok body) :
    loadHTMLFromWeb env url = ⟨[.httpGet url], .ok body⟩ := by
  simp [loadHTMLFromWeb, hget, hread]

theorem dlsite_run (env : Env) (path contentID : GoString) (en : Bool)
    (resp : Response) (body : GoString) (doc : Document)
    (hget : env.httpGet (dlsiteURL contentID) = .ok resp) (hread : resp.readAll = .ok body)
    (hdoc : env.newDocumentFromReader body = .ok doc) :
    getWorkInfoFromDLsite env path contentID en =
      let work : Work :=
        ⟨doc.findText (str "h1#work_name>a"), doc.findText (str "span.maker_name>a")⟩
      ⟨[.callDLsite path contentID, .httpGet (dlsiteURL contentID),
          .stdout (path ++ str " -> " ++ work.filename ++ str "\n")] ++
          (if en then [.rename path (renameTarget path work)] else []),
        if en then ofError (env.osRename path (renameTarget path work)) else .ok ()⟩ := by
  have h := loadHTMLFromWeb_ok env _ resp body hget hread
  simp only [dlsiteURL] at h
  simp only [getWorkInfoFromDLsite, h, hdoc]
  cases en <;> simp [renameTarget, dlsiteURL]

theorem fanza_run_api (env : Env) (path contentID : GoString) (api : FanzaAPIInfo)
    (en : Bool) (resp : Response) (body : GoString)
    (hget : env.httpGet (generateRequestURL contentID api) = .ok resp)
    (hread : resp.readAll = .ok body)
    (ht : (navTitle ((env.jsonUnmarshal body).getD .null)).2 = none)
    (hm : (navMaker ((env.jsonUnmarshal body).getD .null)).2 = none) :
    getWorkInfoFromFanza env path contentID api en =
      let work : Work :=
        ⟨(navTitle ((env.jsonUnmarshal body).getD .null)).1,
         (navMaker ((env.jsonUnmarshal body).getD .null)).1⟩
      ⟨[.callFanza path contentID, .httpGet (generateRequestURL contentID api),
          .stdout (path ++ str " -> "), .stdout (work.filename ++ str "\n")] ++
          (if en then [.rename path (renameTarget path work)] else []),
        if en then ofError (env.osRename path (renameTarget path work)) else .ok ()⟩ := by
  cases en <;> simp [getWorkInfoFromFanza, hget, hread, ht, hm, renameTarget]

theorem fanza_run_fallback (env : Env) (path contentID : GoString) (api : FanzaAPIInfo)
    (en : Bool) (resp : Response) (body : GoString)
    (hget : env.httpGet (generateRequestURL contentID api) = .ok resp)
    (hread : resp.readAll = .ok body)
    (hnav : ¬ ((navTitle ((env.jsonUnmarshal body).getD .null)).2 = none ∧
      (navMaker ((env.jsonUnmarshal body).getD .null)).2 = none)) :
    getWorkInfoFromFanza env path contentID api en =
      let t := [Event.callFanza path contentID, .httpGet (generateRequestURL contentID api),
          .stdout (path ++ str " -> "), .callScrape path contentID,
          .httpGet (detailURL contentID)]
      match (scrapeFanza env path contentID en).result with
      | .fault => ⟨t, .fault⟩
      | .err e => ⟨t, .err e⟩
      | .ok work =>
        ⟨t ++ [.stdout (work.filename ++ str "\n")] ++
          (if en then [.rename path (renameTarget path work)] else []),
        if en then ofError (env.osRename path (renameTarget path work)) else .ok ()⟩ := by
  have hc : ((navTitle ((env.jsonUnmarshal body).getD .null)).2.isSome ||
      (navMaker ((env.jsonUnmarshal body).getD .null)).2.isSome) = true := by
    cases h1 : (navTitle ((env.jsonUnmarshal body).getD .null)).2 <;>
      cases h2 : (navMaker ((env.jsonUnmarshal body).getD .null)).2 <;> simp_all
  simp only [getWorkInfoFromFanza, hget, hread, hc, if_true, scrapeFanza_trace, detailURL]
  cases (scrapeFanza env path contentID en).result with
  | fault => simp
  | err e => simp
  | ok work => cases en <;> simp [renameTarget]

theorem scrapeFanza_run (env : Env) (path contentID : GoString) (en : Bool)
    (resp : Response) (body : GoString) (doc : Document)
    (hget : env.httpGet (detailURL contentID) = .ok resp) (hread : resp.readAll = .ok body)
    (hdoc : env.newDocumentFromReader body = .ok doc) :
    (scrapeFanza env path contentID en).result =
      match re.FindAllStringSubmatch (doc.findText (str "title")) with
      | [] => .fault
      | [_, r01, r02] :: _ => .ok ⟨r01, r02⟩
      | _ :: _ => .err ⟨str "Error during pattern match"⟩ := by
  have h := loadHTMLFromWeb_ok env _ resp body hget hread
  simp only [detailURL] at h
  simp only [scrapeFanza, h, hdoc]
  generalize re.FindAllStringSubmatch (doc.findText (str "title")) = res
  match res with
  | [] => rfl
  | [] :: _ => rfl
  | [_] :: _ => rfl
  | [_, _] :: _ => rfl
  | [_, _, _] :: _ => rfl
  | (_ :: _ :: _ :: _ :: _) :: _ => rfl

theorem fanza_resolved_run (env : Env) (path contentID : GoString) (api : FanzaAPIInfo)
    (en : Bool) (w : Work) (h : FanzaResolves env path contentID api en w) :
    output (getWorkInfoFromFanza env path contentID api en).trace =
        path ++ str " -> " ++ w.filename ++ str "\n" ∧
      renames (getWorkInfoFromFanza env path contentID api en).trace =
        (if en then [(path, renameTarget path w)] else []) ∧
      (getWorkInfoFromFanza env path contentID api en).result =
        (if en then ofError (env.osRename path (renameTarget path w)) else .ok ()) := by
  obtain ⟨resp, body, hget, hread, h⟩ := h
  rcases h with ⟨ht, hm, hw⟩ | ⟨hnav, hs⟩
  · rw [fanza_run_api env path contentID api en resp body hget hread ht hm, ← hw]
    cases en <;> simp [output, renames]
  · rw [fanza_run_fallback env path contentID api en resp body hget hread hnav, hs]
    cases en <;> simp [output, renames]

theorem dlsite_resolved_run (env : Env) (path contentID : GoString) (en : Bool) (w : Work)
    (h : DLsiteResolves env contentID w) :
    output (getWorkInfoFromDLsite env path contentID en).trace =
        path ++ str " -> " ++ w.filename ++ str "\n" ∧
      renames (getWorkInfoFromDLsite env path contentID en).trace =
        (if en then [(path, renameTarget path w)] else []) ∧
      (getWorkInfoFromDLsite env path contentID en).result =
        (if en then ofError (env.osRename path (renameTarget path w)) else .ok ()) := by
  obtain ⟨resp, body, doc, hget, hread, hdoc, hw⟩ := h
  rw [dlsite_run env path contentID en resp body doc hget hread hdoc, ← hw]
  cases en <;> simp [output, renames]

theorem renames_fanza_dry (env : Env) (path contentID : GoString) (api : FanzaAPIInfo) :
    renames (getWorkInfoFromFanza env path contentID api false).trace = [] := by
  simp only [getWorkInfoFromFanza]
  split
  · simp [renames]
  · split
    · simp [renames]
    · split
      · split <;> simp [renames, scrapeFanza_trace]
      · simp [renames]

theorem renames_dlsite_dry (env : Env) (path contentID : GoString) :
    renames (getWorkInfoFromDLsite env path contentID false).trace = [] := by
  simp only [getWorkInfoFromDLsite, loadHTMLFromWeb_trace]
  split
  · simp [renames]
  · simp [renames]
  · split <;> simp [renames]

/-! ## `filepath.Clean` returns a cleaned path and leaves a cleaned path alone -/

namespace filepath

theorem dropElem_sep (dd : Nat) (X : GoString) (hX : dd ≤ X.length) :
    ∀ l : GoString, SepFree l → dropElem dd (l ++ 47 :: X) = X := by
  intro l
  induction l with
  | nil => intro _; simp [dropElem, isPathSeparator]
  | cons b l ih =>
    intro h
    have hb : isPathSeparator b = false := h b (List.mem_cons_self _ _)
    have hl : SepFree l := fun x hx => h x (List.mem_cons_of_mem _ hx)
    have hlen : dd < (l ++ 47 :: X).length := by simp; omega
    have hc : (decide (dd < (l ++ 47 :: X).length) && !isPathSeparator b) = true := by
      rw [hb, decide_eq_true hlen]; rfl
    rw [List.cons_append, dropElem, if_pos hc]
    exact ih hl

theorem dropElem_base (dd : Nat) (X : GoString) (hX : dd = X.length) :
    ∀ l : GoString, SepFree l → l ≠ [] → dropElem dd (l ++ X) = X := by
  intro l
  induction l with
  | nil => intro _ h; exact absurd rfl h
  | cons b l ih =>
    intro h _
    have hb : isPathSeparator b = false := h b (List.mem_cons_self _ _)
    have hl : SepFree l := fun x hx => h x (List.mem_cons_of_mem _ hx)
    cases l with
    | nil => simp [dropElem, hX]
    | cons b2 l2 =>
      have hlen : dd < (b2 :: l2 ++ X).length := by simp; omega
      have hc : (decide (dd < (b2 :: l2 ++ X).length) && !isPathSeparator b) = true := by
        rw [hb, decide_eq_true hlen]; rfl
      rw [List.cons_append, dropElem, if_pos hc]
      exact ih hl (by simp)

theorem sepFree_reverse (e : GoString) (h : SepFree e) : SepFree e.reverse :=
  fun b hb => h b (List.mem_reverse.mp hb)

theorem backtrack_sep (dd : Nat) (X e : GoString) (hX : dd ≤ X.length) (he : SepFree e) :
    backtrack (X ++ 47 :: e) dd = X := by
  have : (X ++ 47 :: e).reverse = e.reverse ++ 47 :: X.reverse := by simp
  rw [backtrack, this, dropElem_sep dd X.reverse (by simpa using hX) _ (sepFree_reverse e he)]
  simp

theorem backtrack_base (dd : Nat) (X e : GoString) (hX : dd = X.length) (he : SepFree e)
    (hne : e ≠ []) : backtrack (X ++ e) dd = X := by
  have : (X ++ e).reverse = e.reverse ++ X.reverse := by simp
  rw [backtrack, this, dropElem_base dd X.reverse (by simpa using hX) _ (sepFree_reverse e he)
    (by simpa using hne)]
  simp

theorem dropWhile_length_le {α : Type} (p : α → Bool) (l : List α) :
    (l.dropWhile p).length ≤ l.length := by
  induction l with
  | nil => simp
  | cons a l ih =>
    simp only [List.dropWhile_cons]
    split
    · simp; omega
    · simp

/-- With enough fuel the loop does not depend on the fuel. -/
theorem cleanLoop_fuel (r : Bool) : ∀ (f1 f2 : Nat) (rest out : GoString) (dd : Nat),
    rest.length ≤ f1 → rest.length ≤ f2 →
    cleanLoop r f1 rest out dd = cleanLoop r f2 rest out dd := by
  intro f1
  induction f1 with
  | zero =>
    intro f2 rest out dd h1 _
    have : rest = [] := List.length_eq_zero.mp (Nat.le_zero.mp h1)
    subst this
    cases f2 <;> simp [cleanLoop]
  | succ f1 ih =>
    intro f2 rest out dd h1 h2
    cases rest with
    | nil => cases f2 <;> simp [cleanLoop]
    | cons c tl =>
      cases f2 with
      | zero => simp at h2
      | succ f2 =>
        simp only [List.length_cons, Nat.add_le_add_iff_right] at h1 h2
        have ht : tl.tail.length ≤ tl.length := by simp
        simp only [cleanLoop]
        split
        · exact ih _ _ _ _ h1 h2
        · split
          · exact ih _ _ _ _ h1 h2
          · split
            · split
              · exact ih _ _ _ _ (by omega) (by omega)
              · split
                · exact ih _ _ _ _ (by omega) (by omega)
                · exact ih _ _ _ _ (by omega) (by omega)
            · rename_i hc _ _
              have hd : ((c :: tl).dropWhile fun b => !isPathSeparator b).length ≤ tl.length := by
                simp only [List.dropWhile_cons]
                simp only [Bool.not_eq_true] at hc
                simp only [hc, Bool.not_false, if_true]
                exact dropWhile_length_le _ _
              exact ih _ _ _ _ (by omega) (by omega)

theorem tailOK_ahead (t : GoString) (h : TailOK t) : (t.isEmpty || sepAhead t) = true := by
  rcases h with h | ⟨t1, h⟩ <;> subst h <;> simp [sepAhead, isPathSeparator]

theorem not_ahead (b : UInt8) (t : GoString) (hb : isPathSeparator b = false) :
    ((b :: t).isEmpty || sepAhead (b :: t)) = false := by
  simp [sepAhead, hb]

theorem step_sep (r : Bool) (f : Nat) (t out : GoString) (dd : Nat)
    (hf : (47 :: t).length ≤ f) :
    cleanLoop r f (47 :: t) out dd = cleanLoop r f t out dd := by
  cases f with
  | zero => simp at hf
  | succ f =>
    simp only [List.length_cons, Nat.add_le_add_iff_right] at hf
    rw [cleanLoop]
    simp only [isPathSeparator, beq_self_eq_true, if_true]
    exact cleanLoop_fuel r _ _ _ _ _ hf (by omega)

theorem step_dot (r : Bool) (f : Nat) (t out : GoString) (dd : Nat) (ht : TailOK t)
    (hf : (46 :: t).length ≤ f) :
    cleanLoop r f (46 :: t) out dd = cleanLoop r f t out dd := by
  cases f with
  | zero => simp at hf
  | succ f =>
    simp only [List.length_cons, Nat.add_le_add_iff_right] at hf
    rw [cleanLoop]
    have h1 : isPathSeparator 46 = false := by decide
    simp only [h1, tailOK_ahead t ht, beq_self_eq_true, Bool.and_self, if_true]
    simp only [Bool.false_eq_true, if_false]
    exact cleanLoop_fuel r _ _ _ _ _ hf (by omega)

theorem step_dotdot (r : Bool) (f : Nat) (t out : GoString) (dd : Nat) (ht : TailOK t)
    (hf : (46 :: 46 :: t).length ≤ f) :
    cleanLoop r f (46 :: 46 :: t) out dd =
      if dd < out.length then cleanLoop r f t (backtrack out dd) dd
      else if !r then
        cleanLoop r f t ((if 0 < out.length then out ++ [47] else out) ++ [46, 46])
          ((if 0 < out.length then out ++ [47] else out) ++ [46, 46]).length
      else cleanLoop r f t out dd := by
  cases f with
  | zero => simp at hf
  | succ f =>
    simp only [List.length_cons] at hf
    rw [cleanLoop]
    have h1 : isPathSeparator 46 = false := by decide
    have h2 : ((46 :: t).isEmpty || sepAhead (46 :: t)) = false := not_ahead 46 t h1
    simp only [h1, h2, List.head?_cons, List.tail_cons, tailOK_ahead t ht, beq_self_eq_true,
      Bool.and_false, Bool.and_self, Bool.false_eq_true, if_false, if_true]
    rw [cleanLoop_fuel r f (f + 1) t _ _ (by omega) (by omega),
      cleanLoop_fuel r f (f + 1) t _ _ (by omega) (by omega),
      cleanLoop_fuel r f (f + 1) t _ _ (by omega) (by omega)]

theorem takeWhile_elem (e t : GoString) (he : SepFree e) (ht : TailOK t) :
    ((e ++ t).takeWhile fun b => !isPathSeparator b) = e ∧
    ((e ++ t).dropWhile fun b => !isPathSeparator b) = t := by
  induction e with
  | nil =>
    rcases ht with h | ⟨t1, h⟩ <;> subst h <;> simp [isPathSeparator]
  | cons b e ih =>
    have hb : isPathSeparator b = false := he b (List.mem_cons_self _ _)
    have := ih fun x hx => he x (List.mem_cons_of_mem _ hx)
    simp [hb, this]

theorem step_real (r : Bool) (f : Nat) (e t out : GoString) (dd : Nat) (he : Real e)
    (ht : TailOK t) (hf : (e ++ t).length ≤ f) :
    cleanLoop r f (e ++ t) out dd = cleanLoop r f t (push r out e) dd := by
  obtain ⟨hne, hsf, hdot, hdd⟩ := he
  have htd := takeWhile_elem e t hsf ht
  cases f with
  | zero =>
    have : e = [] := by
      have := List.length_eq_zero.mp (Nat.le_zero.mp hf)
      exact (List.append_eq_nil.mp this).1
    exact absurd this hne
  | succ f =>
    match e, hne with
    | c :: e1, _ =>
      have hc : isPathSeparator c = false := hsf c (List.mem_cons_self _ _)
      have hsf1 : SepFree e1 := fun x hx => hsf x (List.mem_cons_of_mem _ hx)
      have hlen : t.length ≤ f := by simp at hf; omega
      -- the `.` case does not apply
      have c2 : (c == 46 && ((e1 ++ t).isEmpty || sepAhead (e1 ++ t))) = false := by
        cases e1 with
        | nil =>
          have : c ≠ 46 := fun h => hdot (by rw [h])
          simp [this]
        | cons d e2 =>
          have hd : isPathSeparator d = false := hsf1 d (List.mem_cons_self _ _)
          rw [List.cons_append, not_ahead d _ hd]
          simp
      -- the `..` case does not apply
      have c3 : (c == 46 && (e1 ++ t).head? == some 46 &&
          ((e1 ++ t).tail.isEmpty || sepAhead (e1 ++ t).tail)) = false := by
        cases e1 with
        | nil =>
          have : c ≠ 46 := fun h => hdot (by rw [h])
          simp [this]
        | cons d e2 =>
          cases e2 with
          | nil =>
            have : ¬ (c = 46 ∧ d = 46) := fun h => hdd (by rw [h.1, h.2])
            by_cases h1 : c = 46
            · have h2 : d ≠ 46 := fun h => this ⟨h1, h⟩
              simp [h2]
            · simp [h1]
          | cons x e3 =>
            have hx : isPathSeparator x = false :=
              hsf1 x (List.mem_cons_of_mem _ (List.mem_cons_self _ _))
            simp only [List.cons_append, List.tail_cons]
            rw [not_ahead x _ hx]
            simp
      rw [List.cons_append, cleanLoop]
      rw [List.cons_append] at htd
      simp only [hc, c2, c3, Bool.false_eq_true, if_false, htd.1, htd.2]
      rw [cleanLoop_fuel r f (f + 1) t _ _ hlen (by omega)]
      rfl

theorem slashed_append (xs ys : List GoString) :
    slashed (xs ++ ys) = slashed xs ++ slashed ys := by
  simp [slashed]

theorem joinSep_cons (x : GoString) (xs : List GoString) :
    joinSep (x :: xs) = x ++ slashed xs := by
  induction xs generalizing x with
  | nil => simp [joinSep, slashed]
  | cons y ys ih =>
    rw [joinSep, ih y]
    · simp [slashed]
    · simp

theorem joinSep_concat (xs : List GoString) (e : GoString) (h : xs ≠ []) :
    joinSep (xs ++ [e]) = joinSep xs ++ 47 :: e := by
  cases xs with
  | nil => exact absurd rfl h
  | cons x xs =>
    rw [List.cons_append, joinSep_cons, joinSep_cons, slashed_append]
    simp [slashed]

theorem joinSep_append (xs ys : List GoString) (h : xs ≠ []) :
    joinSep (xs ++ ys) = joinSep xs ++ slashed ys := by
  cases xs with
  | nil => exact absurd rfl h
  | cons x xs =>
    rw [List.cons_append, joinSep_cons, joinSep_cons, slashed_append]
    simp

theorem slashed_ne_nil (ys : List GoString) (h : ys ≠ []) : slashed ys ≠ [] := by
  cases ys with
  | nil => exact absurd rfl h
  | cons y ys => simp [slashed]

theorem joinSep_ne_nil (xs : List GoString) (h : xs ≠ []) (hne : ∀ e ∈ xs, e ≠ []) :
    joinSep xs ≠ [] := by
  cases xs with
  | nil => exact absurd rfl h
  | cons x xs =>
    rw [joinSep_cons]
    intro h0
    exact hne x (List.mem_cons_self _ _) (List.append_eq_nil.mp h0).1

theorem dotdot_sepFree : SepFree [46, 46] := by
  intro b hb
  simp only [List.mem_cons, List.mem_singleton, List.not_mem_nil, or_false, or_self] at hb
  subst hb
  decide

theorem push_rooted_nil (e : GoString) : push true [47] e = 47 :: joinSep [e] := by
  simp [push, joinSep]

theorem push_rooted (es : List GoString) (e : GoString) (hes : es ≠ [])
    (hne : ∀ x ∈ es, x ≠ []) :
    push true (47 :: joinSep es) e = 47 :: joinSep (es ++ [e]) := by
  have h0 := joinSep_ne_nil es hes hne
  rw [joinSep_concat es e hes]
  simp [push, h0]

theorem push_unrooted_nil (e : GoString) : push false [] e = joinSep [e] := by
  simp [push, joinSep]

theorem push_unrooted (xs : List GoString) (e : GoString) (hxs : xs ≠ [])
    (hne : ∀ x ∈ xs, x ≠ []) :
    push false (joinSep xs) e = joinSep (xs ++ [e]) := by
  have h0 := joinSep_ne_nil xs hxs hne
  rw [joinSep_concat xs e hxs]
  simp [push, h0]

theorem ups_ne_nil (n : Nat) : ∀ x ∈ List.replicate n ([46, 46] : GoString), x ≠ [] := by
  intro x hx
  rw [List.eq_of_mem_replicate hx]
  simp

theorem canon_elems_ne_nil (n : Nat) (es : List GoString) (hes : ∀ e ∈ es, Real e) :
    ∀ x ∈ List.replicate n ([46, 46] : GoString) ++ es, x ≠ [] := by
  intro x hx
  rcases List.mem_append.mp hx with h | h
  · exact ups_ne_nil n x h
  · exact (hes x h).1

theorem inv_real (r : Bool) (out e : GoString) (dd : Nat) (h : Inv r out dd) (he : Real e) :
    Inv r (push r out e) dd := by
  cases r with
  | true =>
    simp only [Inv, if_true] at h ⊢
    obtain ⟨hdd, es, hes, hout⟩ := h
    refine ⟨hdd, es ++ [e], ?_, ?_⟩
    · intro x hx
      rcases List.mem_append.mp hx with h | h
      · exact hes x h
      · rw [List.mem_singleton.mp h]; exact he
    · subst hout
      cases es with
      | nil => simpa [joinSep] using push_rooted_nil e
      | cons x xs => exact push_rooted _ e (by simp) fun y hy => (hes y hy).1
  | false =>
    simp only [Inv, Bool.false_eq_true, if_false] at h ⊢
    obtain ⟨n, es, hes, hout, hdd⟩ := h
    refine ⟨n, es ++ [e], ?_, ?_, hdd⟩
    · intro x hx
      rcases List.mem_append.mp hx with h | h
      · exact hes x h
      · rw [List.mem_singleton.mp h]; exact he
    · subst hout
      rw [← List.append_assoc]
      by_cases hnil : List.replicate n ([46, 46] : GoString) ++ es = []
      · rw [hnil]; simpa [joinSep] using push_unrooted_nil e
      · exact push_unrooted _ e hnil (canon_elems_ne_nil n es hes)

theorem cleanLoop_nil (r : Bool) (f : Nat) (out : GoString) (dd : Nat) :
    cleanLoop r f [] out dd = out := by
  cases f <;> simp [cleanLoop]

theorem joinSep_length_le (U es : List GoString) :
    (joinSep U).length ≤ (joinSep (U ++ es)).length := by
  by_cases h : U = []
  · subst h; simp [joinSep]
  · rw [joinSep_append U es h]; simp

theorem joinSep_length_lt (U es : List GoString) (hes : es ≠ []) (hne : ∀ e ∈ es, e ≠ []) :
    (joinSep U).length < (joinSep (U ++ es)).length := by
  by_cases h : U = []
  · subst h
    have := List.length_pos.mpr (joinSep_ne_nil es hes hne)
    simpa [joinSep] using this
  · rw [joinSep_append U es h]
    have := List.length_pos.mpr (slashed_ne_nil es hes)
    simp; omega

theorem eq_nil_or_snoc {α : Type} (l : List α) : l = [] ∨ ∃ L b, l = L ++ [b] := by
  rcases List.eq_nil_or_concat l with h | ⟨L, b, h⟩
  · exact Or.inl h
  · exact Or.inr ⟨L, b, by rw [h, List.concat_eq_append]⟩

theorem inv_dotdot (r : Bool) (out : GoString) (dd : Nat) (h : Inv r out dd) :
    (dd < out.length → Inv r (backtrack out dd) dd) ∧
    (¬ dd < out.length → r = false →
      Inv r ((if 0 < out.length then out ++ [47] else out) ++ [46, 46])
        ((if 0 < out.length then out ++ [47] else out) ++ [46, 46]).length) := by
  cases r with
  | true =>
    simp only [Inv, if_true] at h ⊢
    obtain ⟨hdd, es, hes, hout⟩ := h
    refine ⟨fun hlt => ?_, fun _ hr => absurd hr (by simp)⟩
    subst hdd hout
    rcases eq_nil_or_snoc es with h | ⟨es1, e, h⟩
    · subst h; simp [joinSep] at hlt
    · subst h
      have he : Real e := hes e (by simp)
      have hes1 : ∀ x ∈ es1, Real x := fun x hx => hes x (by simp [hx])
      refine ⟨rfl, es1, hes1, ?_⟩
      by_cases h1 : es1 = []
      · subst h1
        have : (47 :: joinSep ([] ++ [e]) : GoString) = [47] ++ e := by simp [joinSep]
        rw [this, backtrack_base 1 [47] e rfl he.2.1 he.1]
        simp [joinSep]
      · rw [joinSep_concat es1 e h1]
        have : (47 :: (joinSep es1 ++ 47 :: e) : GoString) = (47 :: joinSep es1) ++ 47 :: e := by
          simp
        rw [this, backtrack_sep 1 _ e (by simp) he.2.1]
  | false =>
    simp only [Inv, Bool.false_eq_true, if_false] at h ⊢
    obtain ⟨n, es, hes, hout, hdd⟩ := h
    subst hout hdd
    constructor
    · intro hlt
      rcases eq_nil_or_snoc es with h | ⟨es1, e, h⟩
      · subst h; simp at hlt
      · subst h
        have he : Real e := hes e (by simp)
        have hes1 : ∀ x ∈ es1, Real x := fun x hx => hes x (by simp [hx])
        refine ⟨n, es1, hes1, ?_, rfl⟩
        rw [← List.append_assoc]
        by_cases h1 : List.replicate n ([46, 46] : GoString) ++ es1 = []
        · have hU : List.replicate n ([46, 46] : GoString) = [] := (List.append_eq_nil.mp h1).1
          rw [h1, hU]
          have : (joinSep ([] ++ [e]) : GoString) = [] ++ e := by simp [joinSep]
          rw [this, backtrack_base _ [] e (by simp [joinSep]) he.2.1 he.1]
          simp [joinSep]
        · rw [joinSep_concat _ e h1,
            backtrack_sep _ _ e (joinSep_length_le _ _) he.2.1]
    · intro hge _
      have hnil : es = [] := by
        by_contra hne
        exact hge (joinSep_length_lt _ es hne fun e he => (hes e he).1)
      subst hnil
      refine ⟨n + 1, [], by simp, ?_, ?_⟩
      · simp only [List.append_nil]
        rw [List.replicate_succ']
        by_cases hU : List.replicate n ([46, 46] : GoString) = []
        · rw [hU]; simp [joinSep]
        · have h0 := joinSep_ne_nil _ hU (ups_ne_nil n)
          have hpos : 0 < (joinSep (List.replicate n ([46, 46] : GoString))).length :=
            List.length_pos.mpr h0
          rw [joinSep_concat _ _ hU]
          simp [hpos]
      · simp only [List.append_nil]
        rw [List.replicate_succ']
        by_cases hU : List.replicate n ([46, 46] : GoString) = []
        · rw [hU]; simp [joinSep]
        · have h0 := joinSep_ne_nil _ hU (ups_ne_nil n)
          have hpos : 0 < (joinSep (List.replicate n ([46, 46] : GoString))).length :=
            List.length_pos.mpr h0
          rw [joinSep_concat _ _ hU]
          simp [hpos]

theorem tailOK_dropWhile (l : GoString) :
    TailOK (l.dropWhile fun b => !isPathSeparator b) := by
  induction l with
  | nil => exact Or.inl rfl
  | cons b l ih =>
    by_cases hb : isPathSeparator b = true
    · right
      have : b = 47 := by simpa [isPathSeparator] using hb
      subst this
      exact ⟨l, by simp [isPathSeparator]⟩
    · simp only [Bool.not_eq_true] at hb
      simpa [List.dropWhile_cons, hb] using ih

theorem sepFree_takeWhile (l : GoString) :
    SepFree (l.takeWhile fun b => !isPathSeparator b) := by
  intro b hb
  have := List.mem_takeWhile_imp hb
  simpa using this

/-- The loop keeps the invariant. -/
theorem cleanLoop_inv (r : Bool) : ∀ (n : Nat) (rest : GoString) (f : Nat) (out : GoString)
    (dd : Nat), rest.length ≤ n → rest.length ≤ f → Inv r out dd →
    ∃ dd1, Inv r (cleanLoop r f rest out dd) dd1 := by
  intro n
  induction n with
  | zero =>
    intro rest f out dd hn _ hinv
    have : rest = [] := List.length_eq_zero.mp (Nat.le_zero.mp hn)
    subst this
    exact ⟨dd, by rw [cleanLoop_nil]; exact hinv⟩
  | succ n ih =>
    intro rest f out dd hn hf hinv
    cases rest with
    | nil => exact ⟨dd, by rw [cleanLoop_nil]; exact hinv⟩
    | cons c tl =>
      simp only [List.length_cons, Nat.add_le_add_iff_right] at hn
      by_cases hc : isPathSeparator c = true
      · have : c = 47 := by simpa [isPathSeparator] using hc
        subst this
        rw [step_sep r f tl out dd hf]
        exact ih tl f out dd hn (by simp at hf; omega) hinv
      · simp only [Bool.not_eq_true] at hc
        -- split the input into its first element and the rest
        have hsplit : c :: tl =
            ((c :: tl).takeWhile fun b => !isPathSeparator b) ++
            ((c :: tl).dropWhile fun b => !isPathSeparator b) :=
          (List.takeWhile_append_dropWhile _ _).symm
        have hT := tailOK_dropWhile (c :: tl)
        have hE := sepFree_takeWhile (c :: tl)
        have hEne : ((c :: tl).takeWhile fun b => !isPathSeparator b) ≠ [] := by
          simp [List.takeWhile_cons, hc]
        generalize ((c :: tl).takeWhile fun b => !isPathSeparator b) = e at hsplit hE hEne
        generalize ((c :: tl).dropWhile fun b => !isPathSeparator b) = t at hsplit hT
        have hlen : (c :: tl).length = e.length + t.length := by rw [hsplit]; simp
        have hepos : 0 < e.length := List.length_pos.mpr hEne
        simp only [List.length_cons] at hlen hf
        have htn : t.length ≤ n := by omega
        have htf : t.length ≤ f := by omega
        rw [hsplit]
        by_cases hdot : e = [46]
        · subst hdot
          rw [List.singleton_append, step_dot r f t out dd hT (by simp; simp at hlen; omega)]
          exact ih t f out dd htn htf hinv
        · by_cases hdd : e = [46, 46]
          · subst hdd
            have hi := inv_dotdot r out dd hinv
            have hs := step_dotdot r f t out dd hT (by simp; simp at hlen; omega)
            simp only [List.cons_append, List.nil_append] at hs ⊢
            rw [hs]
            by_cases hlt : dd < out.length
            · rw [if_pos hlt]
              exact ih t f _ dd htn htf (hi.1 hlt)
            · rw [if_neg hlt]
              cases r with
              | true => simpa using ih t f out dd htn htf hinv
              | false =>
                simp only [Bool.not_false, if_true]
                exact ih t f _ _ htn htf (hi.2 hlt rfl)
          · have hreal : Real e := ⟨hEne, hE, hdot, hdd⟩
            rw [step_real r f e t out dd hreal hT (by simp; omega)]
            exact ih t f _ dd htn htf (inv_real r out e dd hinv hreal)

/-- `Clean` returns a cleaned path. -/
theorem canon_Clean (q : GoString) : Canon (Clean q) := by
  cases q with
  | nil => exact Or.inl rfl
  | cons c tl =>
    by_cases hc : isPathSeparator c = true
    · have hinv : Inv true [47] 1 := by
        simp only [Inv, if_true]
        exact ⟨trivial, [], by simp, by simp [joinSep]⟩
      obtain ⟨dd1, h⟩ := cleanLoop_inv true tl.length tl ((c :: tl).length + 1) [47] 1
        (Nat.le_refl _) (by simp; omega) hinv
      simp only [Inv, if_true] at h
      obtain ⟨_, es, hes, hout⟩ := h
      right; left
      refine ⟨es, hes, ?_⟩
      simp only [Clean, hc, if_true]
      rw [hout]
      simp
    · simp only [Bool.not_eq_true] at hc
      have hinv : Inv false [] 0 := by
        simp only [Inv, Bool.false_eq_true, if_false]
        exact ⟨0, [], by simp, by simp [joinSep], by simp [joinSep]⟩
      obtain ⟨dd1, h⟩ := cleanLoop_inv false (c :: tl).length (c :: tl)
        ((c :: tl).length + 1) [] 0 (Nat.le_refl _) (by omega) hinv
      simp only [Inv, Bool.false_eq_true, if_false] at h
      obtain ⟨n, es, hes, hout, _⟩ := h
      simp only [Clean, hc, Bool.false_eq_true, if_false]
      by_cases hemp : (cleanLoop false ((c :: tl).length + 1) (c :: tl) [] 0).isEmpty = true
      · rw [if_pos hemp]; exact Or.inl rfl
      · rw [if_neg hemp]
        right; right
        refine ⟨n, es, hes, hout, ?_⟩
        intro h0
        rw [h0] at hemp
        simp at hemp

theorem tailOK_slashed (xs : List GoString) (t : GoString) (ht : TailOK t) :
    TailOK (slashed xs ++ t) := by
  cases xs with
  | nil => simpa [slashed] using ht
  | cons x xs => exact Or.inr ⟨x ++ slashed xs ++ t, by simp [slashed]⟩

theorem push_sep (r : Bool) (out e : GoString) (h : (if r then 2 else 1) ≤ out.length) :
    push r out e = out ++ 47 :: e := by
  cases r with
  | true =>
    have : out.length ≠ 1 := by simp at h; omega
    simp [push, this]
  | false =>
    have : out ≠ [] := by
      intro h0; subst h0; simp at h
    simp [push, this]

/-- Real elements, each after a separator, are copied. -/
theorem run_reals (r : Bool) (f : Nat) (t : GoString) (dd : Nat) (ht : TailOK t) :
    ∀ (es : List GoString) (out : GoString), (∀ e ∈ es, Real e) →
      (if r then 2 else 1) ≤ out.length → (slashed es ++ t).length ≤ f →
      cleanLoop r f (slashed es ++ t) out dd = cleanLoop r f t (out ++ slashed es) dd := by
  intro es
  induction es with
  | nil => intro out _ _ _; simp [slashed]
  | cons e es ih =>
    intro out hes hout hf
    have he : Real e := hes e (List.mem_cons_self _ _)
    have hes1 : ∀ x ∈ es, Real x := fun x hx => hes x (List.mem_cons_of_mem _ hx)
    have e1 : slashed (e :: es) ++ t = 47 :: (e ++ (slashed es ++ t)) := by simp [slashed]
    have e2 : out ++ slashed (e :: es) = (out ++ 47 :: e) ++ slashed es := by simp [slashed]
    rw [e1] at hf ⊢
    simp only [List.length_cons, List.length_append] at hf
    rw [step_sep r f _ out dd (by simp; omega),
      step_real r f e _ out dd he (tailOK_slashed es t ht) (by simp; omega),
      push_sep r out e hout, e2]
    apply ih _ hes1
    · have : (if r then 2 else 1) ≤ 2 := by cases r <;> simp
      simp; omega
    · simp; omega

/-- `..` elements, each after a separator, are copied when nothing can be taken back. -/
theorem run_ups (f : Nat) (t : GoString) (ht : TailOK t) :
    ∀ (n : Nat) (out : GoString), out ≠ [] →
      (slashed (List.replicate n [46, 46]) ++ t).length ≤ f →
      cleanLoop false f (slashed (List.replicate n [46, 46]) ++ t) out out.length =
        cleanLoop false f t (out ++ slashed (List.replicate n [46, 46]))
          (out ++ slashed (List.replicate n [46, 46])).length := by
  intro n
  induction n with
  | zero => intro out _ _; simp [slashed]
  | succ n ih =>
    intro out hout hf
    have hpos : 0 < out.length := List.length_pos.mpr hout
    have e1 : slashed (List.replicate (n + 1) [46, 46]) ++ t =
        47 :: 46 :: 46 :: (slashed (List.replicate n [46, 46]) ++ t) := by
      simp [slashed, List.replicate_succ]
    have e2 : out ++ slashed (List.replicate (n + 1) [46, 46]) =
        (out ++ [47] ++ [46, 46]) ++ slashed (List.replicate n [46, 46]) := by
      simp [slashed, List.replicate_succ]
    rw [e1] at hf ⊢
    simp only [List.length_cons, List.length_append] at hf
    rw [step_sep false f _ out _ (by simp; omega),
      step_dotdot false f _ out _ (tailOK_slashed _ t ht) (by simp; omega),
      if_neg (Nat.lt_irrefl _)]
    simp only [Bool.not_false, if_true, hpos, e2]
    exact ih _ (by simp) (by simp; omega)

/-- The loop on a rooted cleaned path copies it. -/
theorem canon_run_rooted (f : Nat) (t : GoString) (ht : TailOK t) (es : List GoString)
    (hes : ∀ e ∈ es, Real e) (hf : (joinSep es ++ t).length ≤ f) :
    cleanLoop true f (joinSep es ++ t) [47] 1 = cleanLoop true f t (47 :: joinSep es) 1 := by
  cases es with
  | nil => simp [joinSep]
  | cons e es =>
    have he : Real e := hes e (List.mem_cons_self _ _)
    have hes1 : ∀ x ∈ es, Real x := fun x hx => hes x (List.mem_cons_of_mem _ hx)
    have hpos : 0 < e.length := List.length_pos.mpr he.1
    rw [joinSep_cons] at hf ⊢
    simp only [List.length_append] at hf
    rw [List.append_assoc,
      step_real true f e _ [47] 1 he (tailOK_slashed es t ht) (by simp; omega),
      push_rooted_nil e,
      run_reals true f t 1 ht es _ hes1 (by simp [joinSep]; omega) (by simp; omega)]
    simp [joinSep]

/-- The loop on an unrooted cleaned path copies it. -/
theorem canon_run_unrooted (f : Nat) (t : GoString) (ht : TailOK t) (n : Nat)
    (es : List GoString) (hes : ∀ e ∈ es, Real e)
    (hf : (joinSep (List.replicate n [46, 46] ++ es) ++ t).length ≤ f) :
    ∃ dd1, cleanLoop false f (joinSep (List.replicate n [46, 46] ++ es) ++ t) [] 0 =
      cleanLoop false f t (joinSep (List.replicate n [46, 46] ++ es)) dd1 := by
  cases n with
  | zero =>
    cases es with
    | nil => exact ⟨0, by simp [joinSep]⟩
    | cons e es =>
      have he : Real e := hes e (List.mem_cons_self _ _)
      have hes1 : ∀ x ∈ es, Real x := fun x hx => hes x (List.mem_cons_of_mem _ hx)
      have hpos : 0 < e.length := List.length_pos.mpr he.1
      refine ⟨0, ?_⟩
      simp only [List.replicate_zero, List.nil_append] at hf ⊢
      rw [joinSep_cons] at hf ⊢
      simp only [List.length_append] at hf
      rw [List.append_assoc,
        step_real false f e _ [] 0 he (tailOK_slashed es t ht) (by simp; omega),
        push_unrooted_nil e,
        run_reals false f t 0 ht es _ hes1 (by simp [joinSep]; omega) (by simp; omega)]
      simp [joinSep]
  | succ n =>
    have e1 : joinSep (List.replicate (n + 1) [46, 46] ++ es) =
        46 :: 46 :: (slashed (List.replicate n [46, 46]) ++ slashed es) := by
      rw [List.replicate_succ, List.cons_append, joinSep_cons, slashed_append]
      simp
    rw [e1] at hf ⊢
    simp only [List.length_cons, List.length_append] at hf
    refine ⟨([46, 46] ++ slashed (List.replicate n [46, 46])).length, ?_⟩
    have ht1 : TailOK (slashed (List.replicate n [46, 46]) ++ slashed es ++ t) := by
      rw [List.append_assoc]
      exact tailOK_slashed _ _ (tailOK_slashed es t ht)
    have hs := step_dotdot false f _ [] 0 ht1 (by simp; omega)
    simp only [Bool.not_false, if_true, List.length_nil, Nat.lt_irrefl, if_false,
      List.nil_append] at hs
    have hr := run_ups f (slashed es ++ t) (tailOK_slashed es t ht) n [46, 46] (by simp)
      (by simp; omega)
    have hq := run_reals false f t ([46, 46] ++ slashed (List.replicate n [46, 46])).length ht
      es ([46, 46] ++ slashed (List.replicate n [46, 46])) hes (by simp) (by simp; omega)
    simp only [List.cons_append, List.nil_append, List.append_assoc] at hs hr hq ⊢
    rw [hs]
    exact hr.trans hq

theorem Clean_rooted (tl : GoString) :
    Clean (47 :: tl) =
      if (cleanLoop true (tl.length + 2) tl [47] 1).isEmpty then [46]
      else cleanLoop true (tl.length + 2) tl [47] 1 := by
  simp [Clean, isPathSeparator]

theorem Clean_unrooted (b : UInt8) (tl : GoString) (hb : isPathSeparator b = false) :
    Clean (b :: tl) =
      if (cleanLoop false (tl.length + 2) (b :: tl) [] 0).isEmpty then [46]
      else cleanLoop false (tl.length + 2) (b :: tl) [] 0 := by
  simp [Clean, hb]

theorem run_last (r : Bool) (f : Nat) (e out : GoString) (dd : Nat) (he : Real e)
    (hf : e.length + 1 ≤ f) : cleanLoop r f (47 :: e) out dd = push r out e := by
  have h := step_real r f e [] out dd he (Or.inl rfl) (by simp; omega)
  rw [List.append_nil] at h
  rw [step_sep r f e out dd (by simp; omega), h, cleanLoop_nil]

theorem run_slash (r : Bool) (f : Nat) (out : GoString) (dd : Nat) (hf : 1 ≤ f) :
    cleanLoop r f [47] out dd = out := by
  rw [step_sep r f [] out dd (by simpa using hf), cleanLoop_nil]

theorem isEmpty_false_of_ne {α : Type} (l : List α) (h : l ≠ []) : l.isEmpty = false := by
  cases l with
  | nil => exact absurd rfl h
  | cons a l => rfl

/-- Joining a real element to a cleaned path: the result is the element after a
prefix that is empty or ends with a separator and whose cleaning is the path. -/
theorem clean_attach (d e : GoString) (hd : Canon d) (he : Real e) :
    ∃ pre, Clean (d ++ 47 :: e) = pre ++ e ∧ (pre = [] ∨ ∃ p1, pre = p1 ++ [47]) ∧
      Clean pre = d := by
  have hene : e ≠ [] := he.1
  rcases hd with h | ⟨es, hes, h⟩ | ⟨n, es, hes, h, hne⟩
  · -- the path `.`
    subst h
    refine ⟨[], ?_, Or.inl rfl, rfl⟩
    have h46 : isPathSeparator 46 = false := by decide
    rw [List.singleton_append, Clean_unrooted 46 _ h46,
      step_dot false _ (47 :: e) [] 0 (Or.inr ⟨e, rfl⟩) (by simp),
      run_last false _ e [] 0 he (by simp), push_unrooted_nil]
    simp [joinSep, isEmpty_false_of_ne e hene]
  · -- a rooted path
    subst h
    have hrun := canon_run_rooted ((joinSep es ++ 47 :: e).length + 2) (47 :: e)
      (Or.inr ⟨e, rfl⟩) es hes (by omega)
    rw [List.cons_append, Clean_rooted, hrun, run_last true _ e _ 1 he (by simp; omega)]
    by_cases hnil : es = []
    · subst hnil
      refine ⟨[47], ?_, Or.inr ⟨[], rfl⟩, ?_⟩
      · simp [joinSep, push]
      · rw [Clean_rooted]; simp [cleanLoop_nil, joinSep]
    · refine ⟨47 :: joinSep es ++ [47], ?_, Or.inr ⟨_, rfl⟩, ?_⟩
      · rw [push_rooted es e hnil fun x hx => (hes x hx).1, joinSep_concat es e hnil]
        simp
      · have hrun2 := canon_run_rooted ((joinSep es ++ [47]).length + 2) [47]
          (Or.inr ⟨[], rfl⟩) es hes (by omega)
        rw [List.cons_append, Clean_rooted, hrun2, run_slash true _ _ 1 (by omega)]
        simp
  · -- an unrooted path
    have hxs : List.replicate n ([46, 46] : GoString) ++ es ≠ [] := by
      intro h0
      rw [h0] at h
      exact hne (by simpa [joinSep] using h)
    -- its first byte is no separator
    obtain ⟨b, d1, hbd, hb⟩ : ∃ b d1, d = b :: d1 ∧ isPathSeparator b = false := by
      cases hx : List.replicate n ([46, 46] : GoString) ++ es with
      | nil => exact absurd hx hxs
      | cons x xs =>
        have hxmem : x ∈ List.replicate n ([46, 46] : GoString) ++ es := by rw [hx]; simp
        have hxsf : SepFree x := by
          rcases List.mem_append.mp hxmem with h1 | h1
          · rw [List.eq_of_mem_replicate h1]; exact dotdot_sepFree
          · exact (hes x h1).2.1
        have hxne : x ≠ [] := canon_elems_ne_nil n es hes x hxmem
        cases x with
        | nil => exact absurd rfl hxne
        | cons b x1 =>
          refine ⟨b, x1 ++ slashed xs, ?_, hxsf b (List.mem_cons_self _ _)⟩
          rw [h, hx, joinSep_cons]
          simp
    have hdpos : 0 < d.length := List.length_pos.mpr hne
    obtain ⟨dd1, hrun⟩ := canon_run_unrooted ((d1 ++ 47 :: e).length + 2) (47 :: e)
      (Or.inr ⟨e, rfl⟩) n es hes (by rw [← h, hbd]; simp)
    obtain ⟨dd2, hrun2⟩ := canon_run_unrooted ((d1 ++ [47]).length + 2) [47]
      (Or.inr ⟨[], rfl⟩) n es hes (by rw [← h, hbd]; simp)
    rw [← h, hbd, List.cons_append] at hrun hrun2
    refine ⟨d ++ [47], ?_, Or.inr ⟨_, rfl⟩, ?_⟩
    · rw [hbd, List.cons_append, Clean_unrooted b _ hb, hrun,
        run_last false _ e _ dd1 he (by simp; omega),
        push_sep false _ e (by simp)]
      simp
    · rw [hbd, List.cons_append, Clean_unrooted b _ hb, hrun2,
        run_slash false _ _ dd2 (by omega)]
      simp

theorem canon_ne_nil (d : GoString) (hd : Canon d) : d ≠ [] := by
  rcases hd with h | ⟨es, _, h⟩ | ⟨_, _, _, _, hne⟩
  · rw [h]; simp
  · rw [h]; simp
  · exact hne

theorem tailOK_reverse (pre : GoString) (h : pre = [] ∨ ∃ p1, pre = p1 ++ [47]) :
    TailOK pre.reverse := by
  rcases h with h | ⟨p1, h⟩
  · subst h; exact Or.inl rfl
  · subst h; exact Or.inr ⟨p1.reverse, by simp⟩

theorem dirPart_attach (pre e : GoString) (he : SepFree e)
    (hpre : pre = [] ∨ ∃ p1, pre = p1 ++ [47]) : dirPart (pre ++ e) = pre := by
  have h := (takeWhile_elem e.reverse pre.reverse (sepFree_reverse e he)
    (tailOK_reverse pre hpre)).2
  rw [dirPart, List.reverse_append, h, List.reverse_reverse]

theorem Base_attach (pre e : GoString) (he : SepFree e) (hne : e ≠ [])
    (hpre : pre = [] ∨ ∃ p1, pre = p1 ++ [47]) : Base (pre ++ e) = e := by
  have h := (takeWhile_elem e.reverse pre.reverse (sepFree_reverse e he)
    (tailOK_reverse pre hpre)).1
  have hrne : e.reverse ≠ [] := by simpa using hne
  have hstrip : ((pre ++ e).reverse.dropWhile isPathSeparator) = (pre ++ e).reverse := by
    rw [List.reverse_append]
    cases hr : e.reverse with
    | nil => exact absurd hr hrne
    | cons b l =>
      have hb : isPathSeparator b = false :=
        sepFree_reverse e he b (by rw [hr]; exact List.mem_cons_self _ _)
      simp [List.dropWhile_cons, hb]
  have hpe : (pre ++ e).isEmpty = false := isEmpty_false_of_ne _ (by simp [hne])
  simp only [Base, hpe, hstrip, List.reverse_reverse, Bool.false_eq_true, if_false]
  rw [List.reverse_append, h, List.reverse_reverse, isEmpty_false_of_ne e hne]
  simp

/-- Joining a real element to the directory of a path gives a path in that directory
whose last element is the element. -/
theorem dir_join (path e : GoString) (he : Real e) :
    Dir (Join [Dir path, e]) = Dir path ∧ Base (Join [Dir path, e]) = e := by
  have hd : Canon (Dir path) := canon_Clean _
  obtain ⟨pre, hj, hpre, hc⟩ := clean_attach (Dir path) e hd he
  have hJ : Join [Dir path, e] = pre ++ e := by
    simp only [Join, isEmpty_false_of_ne _ (canon_ne_nil _ hd), Bool.false_eq_true, if_false,
      joinSep]
    exact hj
  rw [hJ]
  exact ⟨by rw [Dir, dirPart_attach pre e he.2.1 hpre, hc],
    Base_attach pre e he.2.1 he.1 hpre⟩

end filepath

theorem real_filename (w : Work) (hT : ∀ b ∈ w.Title, b ≠ 47) (hM : ∀ b ∈ w.Maker, b ≠ 47) :
    filepath.Real w.filename := by
  have e : w.filename = 91 :: (w.Maker ++ [93, 32] ++ w.Title ++ [46, 122, 105, 112]) := rfl
  rw [e]
  refine ⟨by simp, ?_, by simp, by simp⟩
  intro b hb
  have hb47 : b ≠ 47 := by
    simp only [List.mem_cons, List.mem_append, List.mem_singleton, List.not_mem_nil,
      or_false] at hb
    rcases hb with h | ((h | h | h) | h) | h | h | h | h
    · rw [h]; decide
    · exact hM b h
    · rw [h]; decide
    · rw [h]; decide
    · exact hT b h
    · rw [h]; decide
    · rw [h]; decide
    · rw [h]; decide
    · rw [h]; decide
  simpa [filepath.isPathSeparator] using hb47

/-! ## The JSON navigations and the shape of the value -/

theorem M_ok_iff (p : Proxy) (k : GoString) (w : JSON) :
    p.M k = .ok w ↔ ∃ fields, p = .ok (.object fields) ∧ fields.lookup k = some w := by
  constructor
  · intro h
    cases p with
    | error e => simp [Proxy.M] at h
    | ok v =>
      cases v with
      | object fields =>
        cases hl : fields.lookup k with
        | none => simp [Proxy.M, hl] at h
        | some x =>
          simp only [Proxy.M, hl, Except.ok.injEq] at h
          exact ⟨fields, rfl, by rw [← h]; exact hl⟩
      | null => simp [Proxy.M] at h
      | bool b => simp [Proxy.M] at h
      | number d => simp [Proxy.M] at h
      | string s => simp [Proxy.M] at h
      | array items => simp [Proxy.M] at h
  · rintro ⟨fields, hp, hl⟩
    subst hp
    simp [Proxy.M, hl]

theorem A_zero_ok_iff (p : Proxy) (w : JSON) :
    p.A 0 = .ok w ↔ ∃ more, p = .ok (.array (w :: more)) := by
  constructor
  · intro h
    cases p with
    | error e => simp [Proxy.A] at h
    | ok v =>
      cases v with
      | array items =>
        cases items with
        | nil => simp [Proxy.A] at h
        | cons x more =>
          simp only [Proxy.A, List.get?_cons_zero, Except.ok.injEq] at h
          exact ⟨more, by rw [h]⟩
      | null => simp [Proxy.A] at h
      | bool b => simp [Proxy.A] at h
      | number d => simp [Proxy.A] at h
      | string s => simp [Proxy.A] at h
      | object fields => simp [Proxy.A] at h
  · rintro ⟨more, hp⟩
    subst hp
    simp [Proxy.A]

theorem String_ok_iff (p : Proxy) :
    (p.String).2 = none ↔ ∃ s, p = .ok (.string s) := by
  constructor
  · intro h
    cases p with
    | error e => simp [Proxy.String] at h
    | ok v =>
      cases v with
      | string s => exact ⟨s, rfl⟩
      | null => simp [Proxy.String] at h
      | bool b => simp [Proxy.String] at h
      | number d => simp [Proxy.String] at h
      | array items => simp [Proxy.String] at h
      | object fields => simp [Proxy.String] at h
  · rintro ⟨s, hp⟩
    subst hp
    rfl

theorem firstItem_iff (v item : JSON) :
    (((dproxyNew v).M (str "result")).M (str "items")).A 0 = .ok item ↔ FirstItem v item := by
  constructor
  · intro h
    obtain ⟨more, h⟩ := (A_zero_ok_iff _ _).mp h
    obtain ⟨f2, h, h2⟩ := (M_ok_iff _ _ _).mp h
    obtain ⟨f1, h, h1⟩ := (M_ok_iff _ _ _).mp h
    simp only [dproxyNew, Except.ok.injEq] at h
    exact ⟨f1, f2, more, h, h1, h2⟩
  · rintro ⟨f1, f2, more, hv, h1, h2⟩
    subst hv
    simp [dproxyNew, Proxy.M, Proxy.A, h1, h2]

/-- The title navigation returns `T` without an error on a value with `T` at
`result.items[0].title`. -/
theorem navTitle_of_shape (v : JSON) (T : GoString) (h : HasTitle v T) :
    navTitle v = (T, none) := by
  obtain ⟨f3, hi, h3⟩ := h
  rw [navTitle, (firstItem_iff v _).mpr hi]
  simp [Proxy.M, Proxy.String, h3]

/-- The maker navigation returns `M` without an error on a value with `M` at
`result.items[0].iteminfo.maker[0].name`. -/
theorem navMaker_of_shape (v : JSON) (M : GoString) (h : HasMaker v M) :
    navMaker v = (M, none) := by
  obtain ⟨f3, f4, f5, more, hi, h3, h4, h5⟩ := h
  rw [navMaker, (firstItem_iff v _).mpr hi]
  simp [Proxy.M, Proxy.A, Proxy.String, h3, h4, h5]

/-- The title navigation fails on every other value. -/
theorem shape_of_navTitle (v : JSON) (h : (navTitle v).2 = none) : ∃ T, HasTitle v T := by
  obtain ⟨T, h⟩ := (String_ok_iff _).mp h
  obtain ⟨f3, h, h3⟩ := (M_ok_iff _ _ _).mp h
  exact ⟨T, f3, (firstItem_iff v _).mp h, h3⟩

/-- The maker navigation fails on every other value. -/
theorem shape_of_navMaker (v : JSON) (h : (navMaker v).2 = none) : ∃ M, HasMaker v M := by
  obtain ⟨M, h⟩ := (String_ok_iff _).mp h
  obtain ⟨f5, h, h5⟩ := (M_ok_iff _ _ _).mp h
  obtain ⟨more, h⟩ := (A_zero_ok_iff _ _).mp h
  obtain ⟨f4, h, h4⟩ := (M_ok_iff _ _ _).mp h
  obtain ⟨f3, h, h3⟩ := (M_ok_iff _ _ _).mp h
  exact ⟨M, f3, f4, f5, more, (firstItem_iff v _).mp h, h3, h4, h5⟩

theorem firstItem_unique (v a b : JSON) (ha : FirstItem v a) (hb : FirstItem v b) : a = b := by
  have h1 := (firstItem_iff v a).mpr ha
  have h2 := (firstItem_iff v b).mpr hb
  rw [h1] at h2
  exact Except.ok.inj h2

/-- A run of `getWorkInfoFromFanza` that entered the fallback once. -/
theorem fanza_fallback_once (env : Env) (path contentID : GoString) (api : FanzaAPIInfo)
    (en : Bool) (resp : Response) (body : GoString)
    (hget : env.httpGet (generateRequestURL contentID api) = .ok resp)
    (hread : resp.readAll = .ok body)
    (hnav : ¬ ((navTitle ((env.jsonUnmarshal body).getD .null)).2 = none ∧
      (navMaker ((env.jsonUnmarshal body).getD .null)).2 = none)) :
    scrapeCalls (getWorkInfoFromFanza env path contentID api en).trace = 1 := by
  rw [fanza_run_fallback env path contentID api en resp body hget hread hnav]
  cases (scrapeFanza env path contentID en).result <;> cases en <;> simp [scrapeCalls]

/-! ## Claims -/

/-- C1: for every title `T` and maker `M`, `Work.filename` is exactly
`"[" ++ M ++ "] " ++ T ++ ".zip"`, with `T` and `M` verbatim. -/
theorem filename_eq (T M : GoString) :
    Work.filename { Title := T, Maker := M } = str "[" ++ M ++ str "] " ++ T ++ str ".zip" ∧
    Work.filename { Title := T, Maker := M } = [91] ++ M ++ [93, 32] ++ T ++ [46, 122, 105, 112] :=
  ⟨rfl, rfl⟩

/-- C2: a non-directory entry without a pre-existing error whose name has at least 8
bytes and ends with `.zip` goes to the Catalog A lookup when it starts with `d_`, and to
the Catalog B lookup when it starts with `RJ`; the identifier is the first 8 bytes of
the name, and the other catalog's lookup is not entered. -/
theorem getWorkInfo_routes (env : Env) (path : GoString) (info : FileInfo)
    (api : FanzaAPIInfo) (en : Bool)
    (hdir : info.IsDir = false) (hlen : 8 ≤ info.Name.length)
    (hzip : hasSuffix info.Name (str ".zip") = true) :
    (hasPrefix info.Name (str "d_") = true →
      getWorkInfo env path info none api en =
        getWorkInfoFromFanza env path (info.Name.take 8) api en ∧
      fanzaCalls (getWorkInfo env path info none api en).trace = [(path, info.Name.take 8)] ∧
      dlsiteCalls (getWorkInfo env path info none api en).trace = []) ∧
    (hasPrefix info.Name (str "RJ") = true →
      getWorkInfo env path info none api en =
        getWorkInfoFromDLsite env path (info.Name.take 8) en ∧
      dlsiteCalls (getWorkInfo env path info none api en).trace = [(path, info.Name.take 8)] ∧
      fanzaCalls (getWorkInfo env path info none api en).trace = []) := by
  have hs : sliceTo info.Name 8 = some (info.Name.take 8) := by simp [sliceTo, hlen]
  constructor
  · intro hd
    have e : getWorkInfo env path info none api en =
        getWorkInfoFromFanza env path (info.Name.take 8) api en := by
      simp [getWorkInfo, hdir, hd, hzip, hs]
    rw [e]
    exact ⟨rfl, fanzaCalls_getWorkInfoFromFanza env path _ api en⟩
  · intro hr
    have e : getWorkInfo env path info none api en =
        getWorkInfoFromDLsite env path (info.Name.take 8) en := by
      simp [getWorkInfo, hdir, hr, hasPrefix_RJ_not_d _ hr, hzip, hs]
    rw [e]
    exact ⟨rfl, dlsiteCalls_getWorkInfoFromDLsite env path _ en⟩

/-- C2 at `d_abc12345.zip` (identifier `d_abc123`) and at `RJ123456.zip`
(identifier `RJ123456`). -/
theorem getWorkInfo_routes_witness :
    (getWorkInfo (titleEnv []) (str "dir/d_abc12345.zip") ⟨str "d_abc12345.zip", false⟩
        none demoAPI false =
      getWorkInfoFromFanza (titleEnv []) (str "dir/d_abc12345.zip") (str "d_abc123")
        demoAPI false) ∧
    (getWorkInfo (titleEnv []) (str "dir/RJ123456.zip") ⟨str "RJ123456.zip", false⟩
        none demoAPI false =
      getWorkInfoFromDLsite (titleEnv []) (str "dir/RJ123456.zip") (str "RJ123456") false) :=
  ⟨((getWorkInfo_routes (titleEnv []) (str "dir/d_abc12345.zip")
      ⟨str "d_abc12345.zip", false⟩ demoAPI false rfl (by decide) (by decide)).1
      (by decide)).1,
   ((getWorkInfo_routes (titleEnv []) (str "dir/RJ123456.zip")
      ⟨str "RJ123456.zip", false⟩ demoAPI false rfl (by decide) (by decide)).2
      (by decide)).1⟩

/-- C3: a directory, and an entry whose name matches neither pattern, is skipped
silently: no effect at all (no lookup, no output, no rename) and a nil error. -/
theorem getWorkInfo_skips (env : Env) (path : GoString) (info : FileInfo)
    (api : FanzaAPIInfo) (en : Bool)
    (h : info.IsDir = true ∨
      (¬ (hasPrefix info.Name (str "d_") = true ∨ hasPrefix info.Name (str "RJ") = true) ∨
        ¬ hasSuffix info.Name (str ".zip") = true)) :
    getWorkInfo env path info none api en = ⟨[], .ok ()⟩ := by
  rcases h with h | h | h
  · simp [getWorkInfo, h]
  · have h1 : hasPrefix info.Name (str "d_") = false := by
      cases hp : hasPrefix info.Name (str "d_") <;> simp_all
    have h2 : hasPrefix info.Name (str "RJ") = false := by
      cases hp : hasPrefix info.Name (str "RJ") <;> simp_all
    simp [getWorkInfo, h1, h2]
  · have h1 : hasSuffix info.Name (str ".zip") = false := by
      cases hp : hasSuffix info.Name (str ".zip") <;> simp_all
    simp [getWorkInfo, h1]

/-- C3 at a directory named like an archive, at a wrong prefix and at a wrong
extension. -/
theorem getWorkInfo_skips_witness :
    getWorkInfo (titleEnv []) (str "d_abc12345.zip") ⟨str "d_abc12345.zip", true⟩ none
        demoAPI true = ⟨[], .ok ()⟩ ∧
    getWorkInfo (titleEnv []) (str "BJ123456.zip") ⟨str "BJ123456.zip", false⟩ none
        demoAPI true = ⟨[], .ok ()⟩ ∧
    getWorkInfo (titleEnv []) (str "RJ123456.rar") ⟨str "RJ123456.rar", false⟩ none
        demoAPI true = ⟨[], .ok ()⟩ :=
  ⟨getWorkInfo_skips _ _ _ _ _ (Or.inl rfl),
   getWorkInfo_skips _ _ _ _ _ (Or.inr (Or.inl (by decide))),
   getWorkInfo_skips _ _ _ _ _ (Or.inr (Or.inr (by decide)))⟩

/-- C10 (fails on the code): on the pattern-matching names `d_.zip` and `RJ1.zip`,
shorter than 8 bytes, the slice `info.Name()[:8]` is out of bounds and `getWorkInfo`
panics before any lookup is entered. -/
theorem getWorkInfo_short_name_faults (env : Env) (path : GoString) (api : FanzaAPIInfo)
    (en : Bool) :
    getWorkInfo env path ⟨str "d_.zip", false⟩ none api en = ⟨[], .fault⟩ ∧
    getWorkInfo env path ⟨str "RJ1.zip", false⟩ none api en = ⟨[], .fault⟩ := by
  constructor <;> rfl

/-- C4: once the API has answered with a body that decodes to `v` (`null` for a body
that is no valid JSON), each of the two navigations succeeds exactly when `v` has a
string at its path (`result.items[0].title`, `result.items[0].iteminfo.maker[0].name`)
and then returns that string.  When both succeed `scrapeFanza` is not entered and the
printed name and the rename target are built from the JSON title and the JSON maker.
When one fails (invalid JSON, an empty `items` array, a missing key, a value of the
wrong type) `scrapeFanza` is entered exactly once, the name and the target are built
from the `Work` of the fallback as a whole, and a failure of the fallback is the
result. -/
theorem fanza_fallback_iff (env : Env) (path contentID : GoString) (api : FanzaAPIInfo)
    (en : Bool) (resp : Response) (body : GoString) (v : JSON)
    (hget : env.httpGet (generateRequestURL contentID api) = .ok resp)
    (hread : resp.readAll = .ok body)
    (hv : (env.jsonUnmarshal body).getD .null = v) :
    -- the navigations and the shape of the value
    (((navTitle v).2 = none ↔ ∃ T, HasTitle v T) ∧
      ((navMaker v).2 = none ↔ ∃ M, HasMaker v M) ∧
      (∀ T, HasTitle v T → navTitle v = (T, none)) ∧
      (∀ M, HasMaker v M → navMaker v = (M, none))) ∧
    -- the fallback is entered if and only if a navigation fails, and then once
    ((scrapeCalls (getWorkInfoFromFanza env path contentID api en).trace = 0 ↔
        (∃ T, HasTitle v T) ∧ (∃ M, HasMaker v M)) ∧
      (scrapeCalls (getWorkInfoFromFanza env path contentID api en).trace = 1 ↔
        ¬ ((∃ T, HasTitle v T) ∧ (∃ M, HasMaker v M))) ∧
      (scrapeCalls (getWorkInfoFromFanza env path contentID api en).trace = 1 ↔
        ¬ ((navTitle v).2 = none ∧ (navMaker v).2 = none))) ∧
    -- both navigations succeed: the Work is (JSON title, JSON maker)
    (∀ T M, HasTitle v T → HasMaker v M →
      scrapeCalls (getWorkInfoFromFanza env path contentID api en).trace = 0 ∧
      output (getWorkInfoFromFanza env path contentID api en).trace =
        path ++ str " -> " ++ Work.filename ⟨T, M⟩ ++ str "\n" ∧
      renames (getWorkInfoFromFanza env path contentID api en).trace =
        if en then [(path, renameTarget path ⟨T, M⟩)] else []) ∧
    -- a navigation fails: the Work is the fallback's, or the fallback's failure is the result
    (¬ ((∃ T, HasTitle v T) ∧ (∃ M, HasMaker v M)) →
      (∀ w, (scrapeFanza env path contentID en).result = .ok w →
        output (getWorkInfoFromFanza env path contentID api en).trace =
          path ++ str " -> " ++ w.filename ++ str "\n" ∧
        renames (getWorkInfoFromFanza env path contentID api en).trace =
          if en then [(path, renameTarget path w)] else []) ∧
      (∀ e, (scrapeFanza env path contentID en).result = .err e →
        (getWorkInfoFromFanza env path contentID api en).result = .err e ∧
        renames (getWorkInfoFromFanza env path contentID api en).trace = []) ∧
      ((scrapeFanza env path contentID en).result = .fault →
        (getWorkInfoFromFanza env path contentID api en).result = .fault ∧
        renames (getWorkInfoFromFanza env path contentID api en).trace = [])) ∧
    -- the causes of a failing navigation
    ((env.jsonUnmarshal body = none →
        scrapeCalls (getWorkInfoFromFanza env path contentID api en).trace = 1) ∧
      (∀ f1 f2, v = .object f1 → f1.lookup (str "result") = some (.object f2) →
        f2.lookup (str "items") = some (.array []) →
        scrapeCalls (getWorkInfoFromFanza env path contentID api en).trace = 1) ∧
      (∀ f3, FirstItem v (.object f3) → f3.lookup (str "title") = none →
        scrapeCalls (getWorkInfoFromFanza env path contentID api en).trace = 1) ∧
      (∀ f3 x, FirstItem v (.object f3) → f3.lookup (str "title") = some x →
        (∀ s, x ≠ .string s) →
        scrapeCalls (getWorkInfoFromFanza env path contentID api en).trace = 1) ∧
      (∀ f3 f4 f5 more, FirstItem v (.object f3) →
        f3.lookup (str "iteminfo") = some (.object f4) →
        f4.lookup (str "maker") = some (.array (.object f5 :: more)) →
        f5.lookup (str "name") = none →
        scrapeCalls (getWorkInfoFromFanza env path contentID api en).trace = 1) ∧
      (∀ f3 f4 f5 more x, FirstItem v (.object f3) →
        f3.lookup (str "iteminfo") = some (.object f4) →
        f4.lookup (str "maker") = some (.array (.object f5 :: more)) →
        f5.lookup (str "name") = some x → (∀ s, x ≠ .string s) →
        scrapeCalls (getWorkInfoFromFanza env path contentID api en).trace = 1)) := by
  subst hv
  have hapi := fanza_run_api env path contentID api en resp body hget hread
  have hfb := fanza_run_fallback env path contentID api en resp body hget hread
  have honce := fanza_fallback_once env path contentID api en resp body hget hread
  have hT : (navTitle ((env.jsonUnmarshal body).getD .null)).2 = none ↔
      ∃ T, HasTitle ((env.jsonUnmarshal body).getD .null) T :=
    ⟨shape_of_navTitle _, fun ⟨T, h⟩ => by rw [navTitle_of_shape _ T h]⟩
  have hM : (navMaker ((env.jsonUnmarshal body).getD .null)).2 = none ↔
      ∃ M, HasMaker ((env.jsonUnmarshal body).getD .null) M :=
    ⟨shape_of_navMaker _, fun ⟨M, h⟩ => by rw [navMaker_of_shape _ M h]⟩
  have hzero : ∀ T M, HasTitle ((env.jsonUnmarshal body).getD .null) T →
      HasMaker ((env.jsonUnmarshal body).getD .null) M →
      scrapeCalls (getWorkInfoFromFanza env path contentID api en).trace = 0 ∧
      output (getWorkInfoFromFanza env path contentID api en).trace =
        path ++ str " -> " ++ Work.filename ⟨T, M⟩ ++ str "\n" ∧
      renames (getWorkInfoFromFanza env path contentID api en).trace =
        if en then [(path, renameTarget path ⟨T, M⟩)] else [] := by
    intro T M ht hm
    have h1 := navTitle_of_shape _ T ht
    have h2 := navMaker_of_shape _ M hm
    rw [hapi (by rw [h1]) (by rw [h2]), h1, h2]
    cases en <;> simp [scrapeCalls, output, renames]
  have hone : ¬ ((∃ T, HasTitle ((env.jsonUnmarshal body).getD .null) T) ∧
      (∃ M, HasMaker ((env.jsonUnmarshal body).getD .null) M)) →
      scrapeCalls (getWorkInfoFromFanza env path contentID api en).trace = 1 :=
    fun h => honce (by rw [hT, hM]; exact h)
  have hcause : (navTitle ((env.jsonUnmarshal body).getD .null)).2 ≠ none ∨
      (navMaker ((env.jsonUnmarshal body).getD .null)).2 ≠ none →
      scrapeCalls (getWorkInfoFromFanza env path contentID api en).trace = 1 := by
    intro h
    apply honce
    rintro ⟨h1, h2⟩
    rcases h with h | h
    · exact h h1
    · exact h h2
  refine ⟨⟨hT, hM, navTitle_of_shape _, navMaker_of_shape _⟩, ⟨?_, ?_, ?_⟩, hzero, ?_,
    ?_, ?_, ?_, ?_, ?_, ?_⟩
  · constructor
    · intro h0
      by_contra hne
      rw [hone hne] at h0
      exact absurd h0 (by decide)
    · rintro ⟨⟨T, ht⟩, ⟨M, hm⟩⟩
      exact (hzero T M ht hm).1
  · constructor
    · rintro h1 ⟨⟨T, ht⟩, ⟨M, hm⟩⟩
      rw [(hzero T M ht hm).1] at h1
      exact absurd h1 (by decide)
    · exact hone
  · rw [hT, hM]
    constructor
    · rintro h1 ⟨⟨T, ht⟩, ⟨M, hm⟩⟩
      rw [(hzero T M ht hm).1] at h1
      exact absurd h1 (by decide)
    · exact hone
  · intro hne
    have hnav : ¬ ((navTitle ((env.jsonUnmarshal body).getD .null)).2 = none ∧
        (navMaker ((env.jsonUnmarshal body).getD .null)).2 = none) := by
      rw [hT, hM]; exact hne
    rw [hfb hnav]
    refine ⟨?_, ?_, ?_⟩
    · intro w hw
      rw [hw]
      cases en <;> simp [output, renames]
    · intro e he
      rw [he]
      simp [renames]
    · intro hf
      rw [hf]
      simp [renames]
  · intro hnone
    apply hcause
    left
    rw [hnone]
    simp [navTitle, dproxyNew, Proxy.M, Proxy.A, Proxy.String]
  · intro f1 f2 h0 h1 h2
    apply hcause
    left
    rw [h0]
    simp [navTitle, dproxyNew, Proxy.M, Proxy.A, Proxy.String, h1, h2]
  · intro f3 hi h3
    apply hcause
    left
    rw [navTitle, (firstItem_iff _ _).mpr hi]
    simp [Proxy.M, Proxy.String, h3]
  · intro f3 x hi h3 hx
    apply hcause
    left
    rw [navTitle, (firstItem_iff _ _).mpr hi]
    cases x with
    | string s => exact absurd rfl (hx s)
    | null => simp [Proxy.M, Proxy.String, h3]
    | bool b => simp [Proxy.M, Proxy.String, h3]
    | number d => simp [Proxy.M, Proxy.String, h3]
    | array items => simp [Proxy.M, Proxy.String, h3]
    | object fields => simp [Proxy.M, Proxy.String, h3]
  · intro f3 f4 f5 more hi h3 h4 h5
    apply hcause
    right
    rw [navMaker, (firstItem_iff _ _).mpr hi]
    simp [Proxy.M, Proxy.A, Proxy.String, h3, h4, h5]
  · intro f3 f4 f5 more x hi h3 h4 h5 hx
    apply hcause
    right
    rw [navMaker, (firstItem_iff _ _).mpr hi]
    cases x with
    | string s => exact absurd rfl (hx s)
    | null => simp [Proxy.M, Proxy.A, Proxy.String, h3, h4, h5]
    | bool b => simp [Proxy.M, Proxy.A, Proxy.String, h3, h4, h5]
    | number d => simp [Proxy.M, Proxy.A, Proxy.String, h3, h4, h5]
    | array items => simp [Proxy.M, Proxy.A, Proxy.String, h3, h4, h5]
    | object fields => simp [Proxy.M, Proxy.A, Proxy.String, h3, h4, h5]

/-- C4 at four API answers: title `Sample` and maker `Studio` (no fallback, the line
printed is `d_abc12345.zip -> [Studio] Sample.zip`); no items; a number as title; an
item without title (one fallback each). -/
theorem fanza_fallback_iff_witness :
    (scrapeCalls (getWorkInfoFromFanza
      (worldEnv (fun _ => []) (some (apiAnswer (str "Sample") (str "Studio"))) none)
      (str "d_abc12345.zip") (str "d_abc123") demoAPI true).trace = 0 ∧
    output (getWorkInfoFromFanza
      (worldEnv (fun _ => []) (some (apiAnswer (str "Sample") (str "Studio"))) none)
      (str "d_abc12345.zip") (str "d_abc123") demoAPI true).trace =
      str "d_abc12345.zip -> [Studio] Sample.zip\n") ∧
    scrapeCalls (getWorkInfoFromFanza
      (worldEnv (fun _ => str "Sample(Studio) - FANZA同人") (some apiNoItems) none)
      (str "d_abc12345.zip") (str "d_abc123") demoAPI true).trace = 1 ∧
    scrapeCalls (getWorkInfoFromFanza
      (worldEnv (fun _ => str "Sample(Studio) - FANZA同人") (some (apiNumberTitle (str "JM")))
        none)
      (str "d_abc12345.zip") (str "d_abc123") demoAPI true).trace = 1 ∧
    scrapeCalls (getWorkInfoFromFanza
      (worldEnv (fun _ => str "Sample(Studio) - FANZA同人") (some (apiNoTitle (str "JM"))) none)
      (str "d_abc12345.zip") (str "d_abc123") demoAPI true).trace = 1 := by
  have h := (fanza_fallback_iff
    (worldEnv (fun _ => []) (some (apiAnswer (str "Sample") (str "Studio"))) none)
    (str "d_abc12345.zip") (str "d_abc123") demoAPI true ⟨.ok []⟩ []
    (apiAnswer (str "Sample") (str "Studio")) rfl rfl rfl).2.2.1
    (str "Sample") (str "Studio")
    ⟨_, ⟨_, _, _, rfl, rfl, rfl⟩, rfl⟩ ⟨_, _, _, _, ⟨_, _, _, rfl, rfl, rfl⟩, rfl, rfl, rfl⟩
  refine ⟨⟨h.1, h.2.1.trans (by decide)⟩, ?_, ?_, ?_⟩
  · exact (fanza_fallback_iff
      (worldEnv (fun _ => str "Sample(Studio) - FANZA同人") (some apiNoItems) none)
      (str "d_abc12345.zip") (str "d_abc123") demoAPI true ⟨.ok []⟩ [] apiNoItems
      rfl rfl rfl).2.2.2.2.2.1 _ _ rfl rfl rfl
  · exact (fanza_fallback_iff
      (worldEnv (fun _ => str "Sample(Studio) - FANZA同人") (some (apiNumberTitle (str "JM")))
        none)
      (str "d_abc12345.zip") (str "d_abc123") demoAPI true ⟨.ok []⟩ []
      (apiNumberTitle (str "JM")) rfl rfl rfl).2.2.2.2.2.2.2.1 _ (.number (str "123"))
      ⟨_, _, _, rfl, rfl, rfl⟩ rfl (fun s h => by cases h)
  · exact (fanza_fallback_iff
      (worldEnv (fun _ => str "Sample(Studio) - FANZA同人") (some (apiNoTitle (str "JM"))) none)
      (str "d_abc12345.zip") (str "d_abc123") demoAPI true ⟨.ok []⟩ []
      (apiNoTitle (str "JM")) rfl rfl rfl).2.2.2.2.2.2.1 _
      ⟨_, _, _, rfl, rfl, rfl⟩ rfl

/-- C5 (fails on the code): when the page loads and parses and its title is not
matched by the pattern, `scrapeFanza` panics on `result[0]` instead of returning the
pattern-mismatch error. -/
theorem scrapeFanza_mismatch_faults (env : Env) (path contentID : GoString) (en : Bool)
    (resp : Response) (body : GoString) (doc : Document)
    (hget : env.httpGet (detailURL contentID) = .ok resp) (hread : resp.readAll = .ok body)
    (hdoc : env.newDocumentFromReader body = .ok doc)
    (hno : re.FindAllStringSubmatch (doc.findText (str "title")) = []) :
    (scrapeFanza env path contentID en).result = .fault := by
  rw [scrapeFanza_run env path contentID en resp body doc hget hread hdoc, hno]

/-- C5 at an empty title and at a title without the ` - FANZA同人` suffix. -/
theorem scrapeFanza_mismatch_faults_witness :
    (scrapeFanza (titleEnv []) (str "d_abc12345.zip") (str "d_abc123") false).result
      = .fault ∧
    (scrapeFanza (titleEnv (str "Sample (Studio)")) (str "d_abc12345.zip") (str "d_abc123")
      false).result = .fault :=
  ⟨scrapeFanza_mismatch_faults (titleEnv []) _ _ _ ⟨.ok []⟩ []
      ⟨fun sel => if sel = str "title" then [] else []⟩ rfl rfl rfl (by decide),
   scrapeFanza_mismatch_faults (titleEnv (str "Sample (Studio)")) _ _ _ ⟨.ok []⟩ []
      ⟨fun sel => if sel = str "title" then str "Sample (Studio)" else []⟩ rfl rfl rfl
      (by decide)⟩

/-- C6 as stated fails: the title `Sample (Studio) - FANZA同人` gives the `Work` with
title `Sample ` (the blank before the parenthesis belongs to the first group), hence
the name `[Studio] Sample .zip` and not `[Studio] Sample.zip`. -/
theorem scrapeFanza_blank_counterexample :
    (scrapeFanza (titleEnv (str "Sample (Studio) - FANZA同人")) (str "d_abc12345.zip")
      (str "d_abc123") false).result = .ok ⟨str "Sample ", str "Studio"⟩ ∧
    Work.filename ⟨str "Sample ", str "Studio"⟩ = str "[Studio] Sample .zip" ∧
    Work.filename ⟨str "Sample ", str "Studio"⟩ ≠ str "[Studio] Sample.zip" := by
  decide

/-- C6, amended: for `T` and `M` without parentheses and line feeds, a page whose
title is `T ++ " (" ++ M ++ ") - FANZA同人"` makes `scrapeFanza` return the `Work` with
title `T ++ " "` and maker `M`, whose file name is `"[M] T .zip"`. -/
theorem scrapeFanza_title_pattern (env : Env) (path contentID : GoString) (en : Bool)
    (resp : Response) (body : GoString) (doc : Document) (T M : GoString)
    (hget : env.httpGet (detailURL contentID) = .ok resp) (hread : resp.readAll = .ok body)
    (hdoc : env.newDocumentFromReader body = .ok doc)
    (htitle : doc.findText (str "title") = T ++ str " (" ++ M ++ str ") - FANZA同人")
    (hT : ∀ b ∈ T, b ≠ 40 ∧ b ≠ 41 ∧ b ≠ 10) (hM : ∀ b ∈ M, b ≠ 40 ∧ b ≠ 41 ∧ b ≠ 10) :
    (scrapeFanza env path contentID en).result = .ok ⟨T ++ str " ", M⟩ ∧
    Work.filename ⟨T ++ str " ", M⟩ = str "[" ++ M ++ str "] " ++ T ++ str " .zip" := by
  constructor
  · have hA : ∀ b ∈ T ++ str " ", b ≠ 10 := by
      intro b hb
      rcases List.mem_append.mp hb with h | h
      · exact (hT b h).2.2
      · have e : str " " = [32] := by decide
        rw [e] at h
        rw [List.mem_singleton.mp h]
        decide
    obtain ⟨more, hfind⟩ := re_find (T ++ str " ") M hA fun b hb => ⟨(hM b hb).2.2, (hM b hb).1⟩
    have e : T ++ str " (" ++ M ++ str ") - FANZA同人" =
        T ++ str " " ++ str "(" ++ M ++ str ") - FANZA同人" := by
      have e1 : str " (" = str " " ++ str "(" := by decide
      rw [e1]
      simp
    rw [scrapeFanza_run env path contentID en resp body doc hget hread hdoc, htitle, e, hfind]
  · have e1 : str " .zip" = str " " ++ str ".zip" := by decide
    simp [Work.filename, e1]

/-- C6, amended, at `Sample (Studio) - FANZA同人`. -/
theorem scrapeFanza_title_pattern_witness :
    (scrapeFanza (titleEnv (str "Sample (Studio) - FANZA同人")) (str "d_abc12345.zip")
      (str "d_abc123") true).result = .ok ⟨str "Sample" ++ str " ", str "Studio"⟩ :=
  (scrapeFanza_title_pattern (titleEnv (str "Sample (Studio) - FANZA同人"))
    (str "d_abc12345.zip") (str "d_abc123") true ⟨.ok []⟩ []
    ⟨fun sel => if sel = str "title" then str "Sample (Studio) - FANZA同人" else []⟩
    (str "Sample") (str "Studio") rfl rfl rfl (by decide) (by decide) (by decide)).1

/-- C7: with `enableRename` false neither lookup issues a rename, whatever the world
answers; whenever a lookup resolves a `Work` it prints `<path> -> <file name>`; and
with `enableRename` true a resolved `Work` gives exactly one rename, to the target
built from it, whose error (if any) is the result of the lookup. -/
theorem dry_run_invariant (env : Env) (path contentID : GoString) (api : FanzaAPIInfo)
    (en : Bool) :
    renames (getWorkInfoFromFanza env path contentID api false).trace = [] ∧
    renames (getWorkInfoFromDLsite env path contentID false).trace = [] ∧
    (∀ w, FanzaResolves env path contentID api en w →
      output (getWorkInfoFromFanza env path contentID api en).trace =
        path ++ str " -> " ++ w.filename ++ str "\n" ∧
      (en = true →
        renames (getWorkInfoFromFanza env path contentID api en).trace =
          [(path, renameTarget path w)] ∧
        (getWorkInfoFromFanza env path contentID api en).result =
          ofError (env.osRename path (renameTarget path w)))) ∧
    (∀ w, DLsiteResolves env contentID w →
      output (getWorkInfoFromDLsite env path contentID en).trace =
        path ++ str " -> " ++ w.filename ++ str "\n" ∧
      (en = true →
        renames (getWorkInfoFromDLsite env path contentID en).trace =
          [(path, renameTarget path w)] ∧
        (getWorkInfoFromDLsite env path contentID en).result =
          ofError (env.osRename path (renameTarget path w)))) := by
  refine ⟨renames_fanza_dry env path contentID api, renames_dlsite_dry env path contentID,
    ?_, ?_⟩
  · intro w hw
    obtain ⟨h1, h2, h3⟩ := fanza_resolved_run env path contentID api en w hw
    refine ⟨h1, fun he => ?_⟩
    subst he
    exact ⟨h2, h3⟩
  · intro w hw
    obtain ⟨h1, h2, h3⟩ := dlsite_resolved_run env path contentID en w hw
    refine ⟨h1, fun he => ?_⟩
    subst he
    exact ⟨h2, h3⟩

/-- C7 in a dry run at the API answer (`Sample`, `Studio`) and at a Catalog B page
with `Title2` and `Maker2`: the lines are printed, and in a run with renames a
failing rename is the result. -/
theorem dry_run_invariant_witness :
    output (getWorkInfoFromFanza
      (worldEnv (fun _ => []) (some (apiAnswer (str "Sample") (str "Studio"))) none)
      (str "d_abc12345.zip") (str "d_abc123") demoAPI false).trace =
      str "d_abc12345.zip -> [Studio] Sample.zip\n" ∧
    (getWorkInfoFromDLsite
      (worldEnv (fun sel => if sel = str "h1#work_name>a" then str "Title2" else str "Maker2")
        none (some ⟨str "exists"⟩))
      (str "RJ123456.zip") (str "RJ123456") true).result = .err ⟨str "exists"⟩ := by
  constructor
  · exact ((dry_run_invariant
      (worldEnv (fun _ => []) (some (apiAnswer (str "Sample") (str "Studio"))) none)
      (str "d_abc12345.zip") (str "d_abc123") demoAPI false).2.2.1
      ⟨str "Sample", str "Studio"⟩
      ⟨⟨.ok []⟩, [], rfl, rfl, Or.inl ⟨by decide, by decide, by decide⟩⟩).1.trans (by decide)
  · exact (((dry_run_invariant
      (worldEnv (fun sel => if sel = str "h1#work_name>a" then str "Title2" else str "Maker2")
        none (some ⟨str "exists"⟩))
      (str "RJ123456.zip") (str "RJ123456") demoAPI true).2.2.2
      ⟨str "Title2", str "Maker2"⟩
      ⟨⟨.ok []⟩, [], _, rfl, rfl, rfl, by decide⟩).2 rfl).2

/-- C8 as stated fails: a Catalog B page on which both selectors find nothing
resolves the `Work` with empty title and maker, and with renames enabled the file is
renamed to `[] .zip` without an error. -/
theorem empty_fields_counterexample :
    getWorkInfoFromDLsite (titleEnv []) (str "RJ123456.zip") (str "RJ123456") true =
      ⟨[.callDLsite (str "RJ123456.zip") (str "RJ123456"),
        .httpGet (str "https://www.dlsite.com/maniax/work/=/product_id/RJ123456.html"),
        .stdout (str "RJ123456.zip -> [] .zip\n"),
        .rename (str "RJ123456.zip") (str "[] .zip")], .ok ()⟩ := by
  decide

/-- C8, amended: no lookup checks the extracted fields.  A `Work` resolved by Catalog A
(through JSON or the fallback) or by Catalog B, also one with an empty title or an
empty maker, is used as it is: its file name is printed, and with renames enabled
exactly one rename to the target built from it is issued, whose error (if any) is the
result of the lookup; with both fields empty the name is `[] .zip`. -/
theorem empty_fields_accepted (env : Env) (path contentID : GoString) (api : FanzaAPIInfo)
    (en : Bool) (w : Work) :
    (FanzaResolves env path contentID api en w →
      output (getWorkInfoFromFanza env path contentID api en).trace =
        path ++ str " -> " ++ w.filename ++ str "\n" ∧
      renames (getWorkInfoFromFanza env path contentID api en).trace =
        (if en then [(path, renameTarget path w)] else []) ∧
      (getWorkInfoFromFanza env path contentID api en).result =
        (if en then ofError (env.osRename path (renameTarget path w)) else .ok ())) ∧
    (DLsiteResolves env contentID w →
      output (getWorkInfoFromDLsite env path contentID en).trace =
        path ++ str " -> " ++ w.filename ++ str "\n" ∧
      renames (getWorkInfoFromDLsite env path contentID en).trace =
        (if en then [(path, renameTarget path w)] else []) ∧
      (getWorkInfoFromDLsite env path contentID en).result =
        (if en then ofError (env.osRename path (renameTarget path w)) else .ok ())) ∧
    (w.Title = [] → w.Maker = [] → w.filename = str "[] .zip") :=
  ⟨fanza_resolved_run env path contentID api en w,
   dlsite_resolved_run env path contentID en w,
   fun ht hm => by rw [Work.filename, ht, hm]; decide⟩

/-- C8, amended, at an API answer with empty title and maker, at the fallback title
`() - FANZA同人` and at a Catalog B page without the two elements: each run renames
the file to `[] .zip`. -/
theorem empty_fields_accepted_witness :
    renames (getWorkInfoFromFanza (worldEnv (fun _ => []) (some (apiAnswer [] [])) none)
      (str "d_abc12345.zip") (str "d_abc123") demoAPI true).trace =
      [(str "d_abc12345.zip", str "[] .zip")] ∧
    renames (getWorkInfoFromFanza (titleEnv (str "() - FANZA同人"))
      (str "d_abc12345.zip") (str "d_abc123") demoAPI true).trace =
      [(str "d_abc12345.zip", str "[] .zip")] ∧
    renames (getWorkInfoFromDLsite (titleEnv []) (str "RJ123456.zip") (str "RJ123456")
      true).trace = [(str "RJ123456.zip", str "[] .zip")] := by
  refine ⟨?_, ?_, ?_⟩
  · exact ((empty_fields_accepted (worldEnv (fun _ => []) (some (apiAnswer [] [])) none)
      (str "d_abc12345.zip") (str "d_abc123") demoAPI true ⟨[], []⟩).1
      ⟨⟨.ok []⟩, [], rfl, rfl, Or.inl ⟨by decide, by decide, by decide⟩⟩).2.1.trans (by decide)
  · exact ((empty_fields_accepted (titleEnv (str "() - FANZA同人"))
      (str "d_abc12345.zip") (str "d_abc123") demoAPI true ⟨[], []⟩).1
      ⟨⟨.ok []⟩, [], rfl, rfl, Or.inr ⟨by decide, by decide⟩⟩).2.1.trans (by decide)
  · exact ((empty_fields_accepted (titleEnv []) (str "RJ123456.zip") (str "RJ123456")
      demoAPI true ⟨[], []⟩).2.1
      ⟨⟨.ok []⟩, [], _, rfl, rfl, rfl, by decide⟩).2.1.trans (by decide)

/-- C9 as stated fails: a title with a path separator moves the target out of the
directory of the file.  For `dir/RJ123456.zip`, title `a/b` and maker `M` the target is
`dir/[M] a/b.zip`, in the directory `dir/[M] a` with base name `b.zip`; for title
`/../../x` the target is `x.zip`, outside `dir`. -/
theorem rename_target_counterexample :
    filepath.Dir (str "dir/RJ123456.zip") = str "dir" ∧
    filepath.Join [filepath.Dir (str "dir/RJ123456.zip"), Work.filename ⟨str "a/b", str "M"⟩]
      = str "dir/[M] a/b.zip" ∧
    filepath.Dir (filepath.Join
      [filepath.Dir (str "dir/RJ123456.zip"), Work.filename ⟨str "a/b", str "M"⟩])
      = str "dir/[M] a" ∧
    filepath.Base (filepath.Join
      [filepath.Dir (str "dir/RJ123456.zip"), Work.filename ⟨str "a/b", str "M"⟩])
      = str "b.zip" ∧
    Work.filename ⟨str "a/b", str "M"⟩ = str "[M] a/b.zip" ∧
    filepath.Join [filepath.Dir (str "dir/RJ123456.zip"),
      Work.filename ⟨str "/../../x", str "M"⟩] = str "x.zip" := by
  decide

/-- C9, amended: for every path and every `Work` whose title and maker contain no path
separator, the rename target `filepath.Join(filepath.Dir(path), work.filename())` has
directory `filepath.Dir(path)` and base name `work.filename()`. -/
theorem rename_target_same_dir (path : GoString) (w : Work)
    (hT : ∀ b ∈ w.Title, b ≠ 47) (hM : ∀ b ∈ w.Maker, b ≠ 47) :
    filepath.Dir (filepath.Join [filepath.Dir path, w.filename]) = filepath.Dir path ∧
    filepath.Base (filepath.Join [filepath.Dir path, w.filename]) = w.filename :=
  filepath.dir_join path w.filename (real_filename w hT hM)

/-- C9, amended, at `dir/RJ123456.zip` with title `..` and maker `Maker2`. -/
theorem rename_target_same_dir_witness :
    filepath.Dir (filepath.Join
      [filepath.Dir (str "dir/RJ123456.zip"), Work.filename ⟨str "..", str "Maker2"⟩])
      = filepath.Dir (str "dir/RJ123456.zip") ∧
    filepath.Base (filepath.Join
      [filepath.Dir (str "dir/RJ123456.zip"), Work.filename ⟨str "..", str "Maker2"⟩])
      = Work.filename ⟨str "..", str "Maker2"⟩ :=
  rename_target_same_dir (str "dir/RJ123456.zip") ⟨str "..", str "Maker2"⟩
    (by decide) (by decide)

end DoujinRenamer
